import Mathlib

/-!
Resource enablement resolver and the networking storage provider.

A shallow embedding of

* `staging/src/k8s.io/apiserver/pkg/server/storage/resource_config.go`
  (`ResourceConfig` and its operations), and
* `pkg/registry/networking/rest/storage_settings.go`
  (`RESTStorageProvider.v1Storage` and `NewRESTStorage`).

A Go `map[K]bool` is a finite map: it is embedded as an association list with
pairwise distinct keys (`AList`).  `m[k] = b` is `AList.insert`, `delete(m, k)`
is `AList.erase`, the two-valued read `b, ok := m[k]` is `AList.lookup`, and
`for k := range m` walks `AList.keys`.  Go leaves the order of a `range` over a
map unspecified; every statement below is quantified over all association
lists, hence over every order in which the keys can be visited.
-/

namespace Storage

/-- Go `schema.GroupVersion`: a comparable struct of two strings. -/
structure GroupVersion where
  Group : String
  Version : String
  deriving DecidableEq, Repr

/-- Go `schema.GroupVersionResource`: a comparable struct of three strings. -/
structure GroupVersionResource where
  Group : String
  Version : String
  Resource : String
  deriving DecidableEq, Repr

/-- Go `GroupVersionResource.GroupVersion()`: drops the resource field. -/
def GroupVersionResource.GroupVersion (gvr : GroupVersionResource) : GroupVersion :=
  { Group := gvr.Group, Version := gvr.Version }

/-- Go `GroupVersion.WithResource(resource)`. -/
def GroupVersion.WithResource (gv : GroupVersion) (resource : String) : GroupVersionResource :=
  { Group := gv.Group, Version := gv.Version, Resource := resource }

/-- A Go `map[K]bool`. -/
abbrev BoolMap (K : Type) := AList (fun _ : K => Bool)

/-- Go `type ResourceConfig struct`. -/
structure ResourceConfig where
  GroupVersionConfigs : BoolMap GroupVersion
  ResourceConfigs : BoolMap GroupVersionResource

/-- Go `NewResourceConfig`: both maps are empty map literals. -/
def NewResourceConfig : ResourceConfig :=
  { GroupVersionConfigs := ∅, ResourceConfigs := ∅ }

/-- Go `DisableMatchingVersions`: `range` over the keys of `GroupVersionConfigs`, and
for each key the matcher accepts, `o.GroupVersionConfigs[k] = false`. -/
def ResourceConfig.DisableMatchingVersions (o : ResourceConfig)
    (matcher : GroupVersion → Bool) : ResourceConfig :=
  { o with
    GroupVersionConfigs :=
      o.GroupVersionConfigs.keys.foldl
        (fun m k => if matcher k then m.insert k false else m) o.GroupVersionConfigs }

/-- Go `EnableMatchingVersions`: as above with `o.GroupVersionConfigs[k] = true`. -/
def ResourceConfig.EnableMatchingVersions (o : ResourceConfig)
    (matcher : GroupVersion → Bool) : ResourceConfig :=
  { o with
    GroupVersionConfigs :=
      o.GroupVersionConfigs.keys.foldl
        (fun m k => if matcher k then m.insert k true else m) o.GroupVersionConfigs }

/-- The first loop of Go `RemoveMatchingResourcePreferences`: the keys of
`ResourceConfigs` accepted by the matcher, appended to `keysToRemove`. -/
def ResourceConfig.keysToRemove (o : ResourceConfig)
    (matcher : GroupVersionResource → Bool) : List GroupVersionResource :=
  o.ResourceConfigs.keys.foldl
    (fun acc k => if matcher k then acc ++ [k] else acc) []

/-- Go `RemoveMatchingResourcePreferences`: collect the matching keys, then
`delete(o.ResourceConfigs, k)` for each collected key. -/
def ResourceConfig.RemoveMatchingResourcePreferences (o : ResourceConfig)
    (matcher : GroupVersionResource → Bool) : ResourceConfig :=
  { o with
    ResourceConfigs :=
      (o.keysToRemove matcher).foldl (fun m k => m.erase k) o.ResourceConfigs }

/-- Go `DisableVersions`: `o.GroupVersionConfigs[version] = false` for each argument. -/
def ResourceConfig.DisableVersions (o : ResourceConfig)
    (versions : List GroupVersion) : ResourceConfig :=
  { o with
    GroupVersionConfigs :=
      versions.foldl (fun m version => m.insert version false) o.GroupVersionConfigs }

/-- Go `EnableVersions`: `o.GroupVersionConfigs[version] = true` for each argument. -/
def ResourceConfig.EnableVersions (o : ResourceConfig)
    (versions : List GroupVersion) : ResourceConfig :=
  { o with
    GroupVersionConfigs :=
      versions.foldl (fun m version => m.insert version true) o.GroupVersionConfigs }

/-- Go `VersionEnabled`: `enabled, _ := o.GroupVersionConfigs[version]`; a missing
key reads as the zero value `false`. -/
def ResourceConfig.VersionEnabled (o : ResourceConfig) (version : GroupVersion) : Bool :=
  match o.GroupVersionConfigs.lookup version with
  | some enabled => enabled
  | none => false

/-- Go `DisableResources`: `o.ResourceConfigs[resource] = false` for each argument. -/
def ResourceConfig.DisableResources (o : ResourceConfig)
    (resources : List GroupVersionResource) : ResourceConfig :=
  { o with
    ResourceConfigs :=
      resources.foldl (fun m resource => m.insert resource false) o.ResourceConfigs }

/-- Go `EnableResources`: `o.ResourceConfigs[resource] = true` for each argument. -/
def ResourceConfig.EnableResources (o : ResourceConfig)
    (resources : List GroupVersionResource) : ResourceConfig :=
  { o with
    ResourceConfigs :=
      resources.foldl (fun m resource => m.insert resource true) o.ResourceConfigs }

/-- Go `ResourceEnabled`: an explicitly set resource flag takes priority; otherwise
the resource is enabled exactly when its version is. -/
def ResourceConfig.ResourceEnabled (o : ResourceConfig)
    (resource : GroupVersionResource) : Bool :=
  match o.ResourceConfigs.lookup resource with
  | some resourceEnabled => resourceEnabled
  | none =>
    if !o.VersionEnabled resource.GroupVersion then
      false
    else
      true

/-- Go `AnyResourceForGroupEnabled`: the first loop returns `true` at a recorded
version of the group that is enabled, the second at a recorded resource of the
group that resolves enabled; `false` when both loops run to their end. -/
def ResourceConfig.AnyResourceForGroupEnabled (o : ResourceConfig) (group : String) : Bool :=
  if o.GroupVersionConfigs.keys.any
      (fun version => decide (version.Group = group) && o.VersionEnabled version) then
    true
  else if o.ResourceConfigs.keys.any
      (fun resource => decide (resource.Group = group) && o.ResourceEnabled resource) then
    true
  else
    false

/-- Go `var _ APIResourceConfigSource = &ResourceConfig{}`: the interface with the
two query methods. -/
structure APIResourceConfigSource where
  ResourceEnabled : GroupVersionResource → Bool
  AnyResourceForGroupEnabled : String → Bool

/-- A `ResourceConfig` seen through the `APIResourceConfigSource` interface. -/
def ResourceConfig.toSource (o : ResourceConfig) : APIResourceConfigSource :=
  { ResourceEnabled := o.ResourceEnabled
    AnyResourceForGroupEnabled := o.AnyResourceForGroupEnabled }

/-- One call of a public mutating method of `ResourceConfig`, with its arguments. -/
inductive Op where
  | EnableVersions (versions : List GroupVersion)
  | DisableVersions (versions : List GroupVersion)
  | EnableResources (resources : List GroupVersionResource)
  | DisableResources (resources : List GroupVersionResource)
  | EnableMatchingVersions (matcher : GroupVersion → Bool)
  | DisableMatchingVersions (matcher : GroupVersion → Bool)
  | RemoveMatchingResourcePreferences (matcher : GroupVersionResource → Bool)

/-- The state after the call `op` on the receiver `o`. -/
def Op.apply (op : Op) (o : ResourceConfig) : ResourceConfig :=
  match op with
  | .EnableVersions versions => o.EnableVersions versions
  | .DisableVersions versions => o.DisableVersions versions
  | .EnableResources resources => o.EnableResources resources
  | .DisableResources resources => o.DisableResources resources
  | .EnableMatchingVersions matcher => o.EnableMatchingVersions matcher
  | .DisableMatchingVersions matcher => o.DisableMatchingVersions matcher
  | .RemoveMatchingResourcePreferences matcher => o.RemoveMatchingResourcePreferences matcher

/-- The state after a sequence of calls, first call first. -/
def runOps (ops : List Op) (o : ResourceConfig) : ResourceConfig :=
  ops.foldl (fun acc op => op.apply acc) o

/-- Whether `v` is among the arguments of this call, for a call of `EnableVersions`
or `DisableVersions`; `false` for every other method. -/
def Op.passesVersion (v : GroupVersion) (op : Op) : Bool :=
  match op with
  | .EnableVersions versions => decide (v ∈ versions)
  | .DisableVersions versions => decide (v ∈ versions)
  | _ => false

/-! The same operations over maps that may be nil.  A Go map field holds either the
nil map or an initialised map; reading, ranging over and deleting from the nil map
are harmless, while assigning to an entry of the nil map is a run-time panic. -/

/-- A Go map variable: `none` is the nil map, `some m` an initialised map. -/
abbrev NilableMap (K : Type) := Option (BoolMap K)

/-- Go `m[k] = b`: on the nil map the statement panics, rendered as `none`. -/
def NilableMap.assign {K : Type} [DecidableEq K] (m : NilableMap K) (k : K) (b : Bool) :
    Option (NilableMap K) :=
  match m with
  | none => none
  | some entries => some (some (entries.insert k b))

/-- Go `delete(m, k)`: a no-op on the nil map. -/
def NilableMap.delete {K : Type} [DecidableEq K] (m : NilableMap K) (k : K) : NilableMap K :=
  match m with
  | none => none
  | some entries => some (entries.erase k)

/-- The keys visited by Go `for k := range m`: none on the nil map. -/
def NilableMap.rangeKeys {K : Type} (m : NilableMap K) : List K :=
  match m with
  | none => []
  | some entries => entries.keys

/-- Go `b, ok := m[k]`: on the nil map every key is absent. -/
def NilableMap.read {K : Type} [DecidableEq K] (m : NilableMap K) (k : K) : Option Bool :=
  match m with
  | none => none
  | some entries => entries.lookup k

/-- Go `type ResourceConfig struct` as a value in memory: each map field may be nil (both
are in the zero value `ResourceConfig{}`). -/
structure RawResourceConfig where
  GroupVersionConfigs : NilableMap GroupVersion
  ResourceConfigs : NilableMap GroupVersionResource

/-- Go `NewResourceConfig`: both fields are set to empty, initialised maps. -/
def NewRawResourceConfig : RawResourceConfig :=
  { GroupVersionConfigs := some ∅, ResourceConfigs := some ∅ }

/-- An initialised configuration as a value in memory. -/
def ResourceConfig.toRaw (o : ResourceConfig) : RawResourceConfig :=
  { GroupVersionConfigs := some o.GroupVersionConfigs, ResourceConfigs := some o.ResourceConfigs }

/-- Go `DisableMatchingVersions` with the panic of a nil-map write made explicit. -/
def RawResourceConfig.DisableMatchingVersions (o : RawResourceConfig)
    (matcher : GroupVersion → Bool) : Option RawResourceConfig :=
  (o.GroupVersionConfigs.rangeKeys.foldlM
    (fun m k => if matcher k then NilableMap.assign m k false else some m)
    o.GroupVersionConfigs).map (fun m => { o with GroupVersionConfigs := m })

/-- Go `EnableMatchingVersions` with the panic of a nil-map write made explicit. -/
def RawResourceConfig.EnableMatchingVersions (o : RawResourceConfig)
    (matcher : GroupVersion → Bool) : Option RawResourceConfig :=
  (o.GroupVersionConfigs.rangeKeys.foldlM
    (fun m k => if matcher k then NilableMap.assign m k true else some m)
    o.GroupVersionConfigs).map (fun m => { o with GroupVersionConfigs := m })

/-- Go `RemoveMatchingResourcePreferences`: it ranges and deletes only, so it cannot
panic. -/
def RawResourceConfig.RemoveMatchingResourcePreferences (o : RawResourceConfig)
    (matcher : GroupVersionResource → Bool) : RawResourceConfig :=
  { o with
    ResourceConfigs :=
      (o.ResourceConfigs.rangeKeys.foldl
        (fun acc k => if matcher k then acc ++ [k] else acc) []).foldl
        (fun m k => NilableMap.delete m k) o.ResourceConfigs }

/-- Go `DisableVersions` with the panic of a nil-map write made explicit. -/
def RawResourceConfig.DisableVersions (o : RawResourceConfig)
    (versions : List GroupVersion) : Option RawResourceConfig :=
  (versions.foldlM (fun m version => NilableMap.assign m version false)
    o.GroupVersionConfigs).map (fun m => { o with GroupVersionConfigs := m })

/-- Go `EnableVersions` with the panic of a nil-map write made explicit. -/
def RawResourceConfig.EnableVersions (o : RawResourceConfig)
    (versions : List GroupVersion) : Option RawResourceConfig :=
  (versions.foldlM (fun m version => NilableMap.assign m version true)
    o.GroupVersionConfigs).map (fun m => { o with GroupVersionConfigs := m })

/-- Go `VersionEnabled` on a possibly nil map. -/
def RawResourceConfig.VersionEnabled (o : RawResourceConfig) (version : GroupVersion) : Bool :=
  match o.GroupVersionConfigs.read version with
  | some enabled => enabled
  | none => false

/-- Go `DisableResources` with the panic of a nil-map write made explicit. -/
def RawResourceConfig.DisableResources (o : RawResourceConfig)
    (resources : List GroupVersionResource) : Option RawResourceConfig :=
  (resources.foldlM (fun m resource => NilableMap.assign m resource false)
    o.ResourceConfigs).map (fun m => { o with ResourceConfigs := m })

/-- Go `EnableResources` with the panic of a nil-map write made explicit. -/
def RawResourceConfig.EnableResources (o : RawResourceConfig)
    (resources : List GroupVersionResource) : Option RawResourceConfig :=
  (resources.foldlM (fun m resource => NilableMap.assign m resource true)
    o.ResourceConfigs).map (fun m => { o with ResourceConfigs := m })

/-- Go `ResourceEnabled` on possibly nil maps. -/
def RawResourceConfig.ResourceEnabled (o : RawResourceConfig)
    (resource : GroupVersionResource) : Bool :=
  match o.ResourceConfigs.read resource with
  | some resourceEnabled => resourceEnabled
  | none =>
    if !o.VersionEnabled resource.GroupVersion then
      false
    else
      true

/-- Go `AnyResourceForGroupEnabled` on possibly nil maps. -/
def RawResourceConfig.AnyResourceForGroupEnabled (o : RawResourceConfig)
    (group : String) : Bool :=
  if o.GroupVersionConfigs.rangeKeys.any
      (fun version => decide (version.Group = group) && o.VersionEnabled version) then
    true
  else if o.ResourceConfigs.rangeKeys.any
      (fun resource => decide (resource.Group = group) && o.ResourceEnabled resource) then
    true
  else
    false

/-- The call `op` on a receiver in memory: `none` when the call panics. -/
def Op.applyRaw (op : Op) (o : RawResourceConfig) : Option RawResourceConfig :=
  match op with
  | .EnableVersions versions => o.EnableVersions versions
  | .DisableVersions versions => o.DisableVersions versions
  | .EnableResources resources => o.EnableResources resources
  | .DisableResources resources => o.DisableResources resources
  | .EnableMatchingVersions matcher => o.EnableMatchingVersions matcher
  | .DisableMatchingVersions matcher => o.DisableMatchingVersions matcher
  | .RemoveMatchingResourcePreferences matcher =>
    some (o.RemoveMatchingResourcePreferences matcher)

/-- A sequence of calls on a receiver in memory, first call first: `none` as soon as
one call panics. -/
def runRawOps (ops : List Op) (o : RawResourceConfig) : Option RawResourceConfig :=
  ops.foldlM (fun acc op => op.applyRaw acc) o

end Storage

namespace Rest

open Storage

/-- Modelled from the spec: `networkingapiv1.SchemeGroupVersion` of `k8s.io/api/networking/v1`
is not part of the sources at hand; the spec names the group `networking.k8s.io`
and the version `v1`. -/
def SchemeGroupVersion : GroupVersion :=
  { Group := "networking.k8s.io", Version := "v1" }

/-- Go `map[string]rest.Storage`, with `H` for the handlers (`rest.Storage`). -/
abbrev StorageMap (H : Type) := AList (fun _ : String => H)

/-- The three storage constructors `networkpolicystore.NewREST`, `ingressstore.NewREST`
and `ingressclassstore.NewREST`, which live outside this package: each takes the
options getter (`G`) and yields its handler(s) or an error (`E`). -/
structure Constructors (G E H : Type) where
  networkPolicyNewREST : G → Except E H
  ingressNewREST : G → Except E (H × H)
  ingressClassNewREST : G → Except E H

/-- The body of Go `v1Storage`.  `throw (storage, err)` is `return storage, err`; falling
off the end is `return storage, nil`. -/
def v1StorageBody {G E H : Type} (apiResourceConfigSource : APIResourceConfigSource)
    (ctors : Constructors G E H) (restOptionsGetter : G) :
    Except (StorageMap H × E) (StorageMap H) := do
  let storage : StorageMap H := ∅
  -- networkpolicies
  let storage ←
    if apiResourceConfigSource.ResourceEnabled
        (SchemeGroupVersion.WithResource "networkpolicies") then
      match ctors.networkPolicyNewREST restOptionsGetter with
      | .error err => throw (storage, err)
      | .ok networkPolicyStorage => pure (storage.insert "networkpolicies" networkPolicyStorage)
    else pure storage
  -- ingresses
  let storage ←
    if apiResourceConfigSource.ResourceEnabled
        (SchemeGroupVersion.WithResource "ingresses") then
      match ctors.ingressNewREST restOptionsGetter with
      | .error err => throw (storage, err)
      | .ok (ingressStorage, ingressStatusStorage) =>
        pure ((storage.insert "ingresses" ingressStorage).insert
          ("ingresses" ++ "/status") ingressStatusStorage)
    else pure storage
  -- ingressclasses
  let storage ←
    if apiResourceConfigSource.ResourceEnabled
        (SchemeGroupVersion.WithResource "ingressclasses") then
      match ctors.ingressClassNewREST restOptionsGetter with
      | .error err => throw (storage, err)
      | .ok ingressClassStorage => pure (storage.insert "ingressclasses" ingressClassStorage)
    else pure storage
  return storage

/-- Go `RESTStorageProvider.v1Storage`: the pair `(map[string]rest.Storage, error)` it
returns, with `none` for a nil error. -/
def v1Storage {G E H : Type} (apiResourceConfigSource : APIResourceConfigSource)
    (ctors : Constructors G E H) (restOptionsGetter : G) : StorageMap H × Option E :=
  match v1StorageBody apiResourceConfigSource ctors restOptionsGetter with
  | .ok storage => (storage, none)
  | .error (storage, err) => (storage, some err)

/-- What `NewRESTStorage` needs of `genericapiserver.APIGroupInfo`, a type declared
outside this package: the value built by `NewDefaultAPIGroupInfo`, the zero value
`APIGroupInfo{}`, and the write `info.VersionedResourcesStorageMap[version] = m`. -/
structure APIGroupInfoOps (H I : Type) where
  NewDefaultAPIGroupInfo : I
  zero : I
  setVersionedResourcesStorageMap : I → String → StorageMap H → I

/-- Go `RESTStorageProvider.NewRESTStorage`: the triple `(APIGroupInfo, bool, error)`. -/
def NewRESTStorage {G E H I : Type} (info : APIGroupInfoOps H I)
    (apiResourceConfigSource : APIResourceConfigSource)
    (ctors : Constructors G E H) (restOptionsGetter : G) : I × Bool × Option E :=
  let apiGroupInfo := info.NewDefaultAPIGroupInfo
  match v1Storage apiResourceConfigSource ctors restOptionsGetter with
  | (_, some err) => (info.zero, false, some err)
  | (storageMap, none) =>
    if storageMap.entries.length > 0 then
      (info.setVersionedResourcesStorageMap apiGroupInfo SchemeGroupVersion.Version storageMap,
        true, none)
    else
      (apiGroupInfo, true, none)

/-- A resolver with every resource of `networking.k8s.io/v1` enabled through its
version. -/
def allEnabledSource : APIResourceConfigSource :=
  (NewResourceConfig.EnableVersions [SchemeGroupVersion]).toSource

/-- Constructors of which the one for ingresses fails and the other two succeed. -/
def ingressFailingCtors : Constructors Unit String String :=
  { networkPolicyNewREST := fun _ => .ok "networkPolicyStorage"
    ingressNewREST := fun _ => .error "ingress store failed"
    ingressClassNewREST := fun _ => .ok "ingressClassStorage" }

/-- The failure one candidate resource contributes to a registration pass: the error
of its constructor when the resolver enables the resource and the constructor fails,
none when the resource is disabled or its constructor succeeds. -/
def candidateFailure {E A : Type} (enabled : Bool) (outcome : Except E A) : Option E :=
  if enabled then
    match outcome with
    | .error err => some err
    | .ok _ => none
  else none

/-- The failure mode of the provider in the words of its contract: the construction
error of the first enabled resource whose constructor fails, the candidates taken
in the fixed order networkpolicies, ingresses, ingressclasses; none when no enabled
resource fails. -/
def firstConstructionError {G E H : Type} (apiResourceConfigSource : APIResourceConfigSource)
    (ctors : Constructors G E H) (restOptionsGetter : G) : Option E :=
  match candidateFailure
      (apiResourceConfigSource.ResourceEnabled (SchemeGroupVersion.WithResource "networkpolicies"))
      (ctors.networkPolicyNewREST restOptionsGetter) with
  | some err => some err
  | none =>
    match candidateFailure
        (apiResourceConfigSource.ResourceEnabled (SchemeGroupVersion.WithResource "ingresses"))
        (ctors.ingressNewREST restOptionsGetter) with
    | some err => some err
    | none =>
      candidateFailure
        (apiResourceConfigSource.ResourceEnabled
          (SchemeGroupVersion.WithResource "ingressclasses"))
        (ctors.ingressClassNewREST restOptionsGetter)

end Rest

/-! ## Reading a map after a loop of writes or deletes -/

namespace Storage

variable {K : Type} [DecidableEq K]

/-- After `m[x] = b` for each `x` of `l`, the keys of `l` read `b` and the others are
as before. -/
theorem lookup_foldl_insert (b : Bool) (l : List K) (m : BoolMap K) (k : K) :
    (l.foldl (fun acc x => acc.insert x b) m).lookup k
      = if k ∈ l then some b else m.lookup k := by
  induction l generalizing m with
  | nil => simp
  | cons x xs ih =>
    rw [List.foldl_cons, ih]
    by_cases hk : k ∈ xs
    · simp [hk]
    · by_cases hx : k = x
      · subst hx
        simp [hk, AList.lookup_insert]
      · simp [hk, hx, AList.lookup_insert_ne hx]

/-- After `if p x then m[x] = b` for each `x` of `l`, the keys of `l` accepted by `p`
read `b` and the others are as before. -/
theorem lookup_foldl_insert_if (p : K → Bool) (b : Bool) (l : List K) (m : BoolMap K)
    (k : K) :
    (l.foldl (fun acc x => if p x then acc.insert x b else acc) m).lookup k
      = if k ∈ l ∧ p k = true then some b else m.lookup k := by
  induction l generalizing m with
  | nil => simp
  | cons x xs ih =>
    rw [List.foldl_cons, ih]
    by_cases hk : k ∈ xs ∧ p k = true
    · simp [hk.1, hk.2]
    · rw [if_neg hk]
      by_cases hx : k = x
      · subst hx
        by_cases hp : p k = true
        · simp [hp, AList.lookup_insert]
        · simp [hp]
      · have hne : ¬ (k ∈ x :: xs ∧ p k = true) := by
          rintro ⟨hmem, hp⟩
          rcases List.mem_cons.mp hmem with h | h
          · exact hx h
          · exact hk ⟨h, hp⟩
        rw [if_neg hne]
        by_cases hp : p x = true
        · simp [hp, AList.lookup_insert_ne hx]
        · simp [hp]

/-- A loop of writes to keys never adds a key outside the keys written. -/
theorem mem_foldl_insert_if (p : K → Bool) (b : Bool) (l : List K) (m : BoolMap K)
    (k : K) :
    k ∈ l.foldl (fun acc x => if p x then acc.insert x b else acc) m
      ↔ (k ∈ l ∧ p k = true) ∨ k ∈ m := by
  rw [← AList.lookup_isSome, lookup_foldl_insert_if, ← AList.lookup_isSome]
  by_cases h : k ∈ l ∧ p k = true
  · simp [h]
  · simp [h]

/-- The collecting loop `if p k then acc = append(acc, k)` is a filter. -/
theorem foldl_append_if {A : Type} (p : A → Bool) (l acc : List A) :
    l.foldl (fun a k => if p k then a ++ [k] else a) acc = acc ++ l.filter p := by
  induction l generalizing acc with
  | nil => simp
  | cons x xs ih =>
    rw [List.foldl_cons, ih]
    by_cases hp : p x = true
    · simp [hp]
    · simp [hp]

/-- After `delete(m, x)` for each `x` of `l`, the keys of `l` are absent and the others
are as before. -/
theorem lookup_foldl_erase (l : List K) (m : BoolMap K) (k : K) :
    (l.foldl (fun acc x => acc.erase x) m).lookup k
      = if k ∈ l then none else m.lookup k := by
  induction l generalizing m with
  | nil => simp
  | cons x xs ih =>
    rw [List.foldl_cons, ih]
    by_cases hk : k ∈ xs
    · simp [hk]
    · by_cases hx : k = x
      · subst hx
        simp [hk, AList.lookup_erase]
      · simp [hk, hx, AList.lookup_erase_ne hx]

/-- The resource map after `RemoveMatchingResourcePreferences`, read at any key. -/
theorem lookup_RemoveMatchingResourcePreferences (o : ResourceConfig)
    (matcher : GroupVersionResource → Bool) (r : GroupVersionResource) :
    (o.RemoveMatchingResourcePreferences matcher).ResourceConfigs.lookup r
      = if matcher r = true then none else o.ResourceConfigs.lookup r := by
  unfold ResourceConfig.RemoveMatchingResourcePreferences ResourceConfig.keysToRemove
  simp only [foldl_append_if, List.nil_append, lookup_foldl_erase, List.mem_filter]
  by_cases hm : matcher r = true
  · by_cases hr : r ∈ o.ResourceConfigs.keys
    · simp [hm, hr]
    · have : o.ResourceConfigs.lookup r = none :=
        AList.lookup_eq_none.mpr (fun h => hr (AList.mem_keys.mp h))
      simp [hm, hr, this]
  · simp [hm]

/-- The version map after a matching-versions loop writing `b`, read at any key. -/
theorem lookup_matchingVersions (b : Bool) (m : BoolMap GroupVersion)
    (matcher : GroupVersion → Bool) (v : GroupVersion) :
    (m.keys.foldl (fun acc k => if matcher k then acc.insert k b else acc) m).lookup v
      = if v ∈ m ∧ matcher v = true then some b else m.lookup v := by
  rw [lookup_foldl_insert_if]
  simp only [AList.mem_keys]

end Storage

/-! ## Resolution of a single resource -/

namespace Storage

/-- C1: for every `ResourceConfig` and every resource with an explicit entry,
`ResourceEnabled` returns exactly the stored flag, whatever the version map holds for
the resource's version.  In particular, from `NewResourceConfig()`, after
`EnableResources((g, v2, widgets))` alone the resource is enabled although
`VersionEnabled((g, v2))` is false. -/
theorem explicit_resource_entry_wins :
    (∀ (c : ResourceConfig) (r : GroupVersionResource) (flag : Bool),
        c.ResourceConfigs.lookup r = some flag → c.ResourceEnabled r = flag) ∧
    (∀ g : String,
        (NewResourceConfig.EnableResources [⟨g, "v2", "widgets"⟩]).ResourceEnabled
            ⟨g, "v2", "widgets"⟩ = true ∧
        (NewResourceConfig.EnableResources [⟨g, "v2", "widgets"⟩]).VersionEnabled
            ⟨g, "v2"⟩ = false) := by
  refine ⟨?_, ?_⟩
  · intro c r flag h
    simp [ResourceConfig.ResourceEnabled, h]
  · intro g
    constructor
    · simp [ResourceConfig.ResourceEnabled, ResourceConfig.EnableResources,
        AList.lookup_insert]
    · simp [ResourceConfig.VersionEnabled, ResourceConfig.EnableResources,
        NewResourceConfig]

/-- The explicit entry wins in both directions on a configuration with an enabled
version `(g, v1)`, a disabled version `(g, v3)`, `gadgets` disabled under the former
and `widgets` enabled under the latter. -/
theorem explicit_resource_entry_wins_witness :
    let c := ((NewResourceConfig.EnableVersions [⟨"g", "v1"⟩]).DisableVersions
      [⟨"g", "v3"⟩]).DisableResources [⟨"g", "v1", "gadgets"⟩]
    (c.ResourceConfigs.lookup ⟨"g", "v1", "gadgets"⟩ = some false ∧
      c.VersionEnabled ⟨"g", "v1"⟩ = true) ∧
    c.ResourceEnabled ⟨"g", "v1", "gadgets"⟩ = false :=
  ⟨⟨by decide, by decide⟩, explicit_resource_entry_wins.1 _ _ false (by decide)⟩

/-- C2: for every `ResourceConfig` and every resource without an explicit entry,
`ResourceEnabled` equals `VersionEnabled` of the resource's version: true when that
version is recorded as enabled, false when it is recorded as disabled or not
recorded at all. -/
theorem resource_without_entry_follows_version (c : ResourceConfig)
    (r : GroupVersionResource) (h : r ∉ c.ResourceConfigs) :
    c.ResourceEnabled r = c.VersionEnabled r.GroupVersion ∧
    (c.GroupVersionConfigs.lookup r.GroupVersion = some true → c.ResourceEnabled r = true) ∧
    (c.GroupVersionConfigs.lookup r.GroupVersion = some false → c.ResourceEnabled r = false) ∧
    (r.GroupVersion ∉ c.GroupVersionConfigs → c.ResourceEnabled r = false) := by
  have hnone : c.ResourceConfigs.lookup r = none := AList.lookup_eq_none.mpr h
  have heq : c.ResourceEnabled r = c.VersionEnabled r.GroupVersion := by
    simp [ResourceConfig.ResourceEnabled, hnone]
  refine ⟨heq, ?_, ?_, ?_⟩
  · intro hv
    simp [heq, ResourceConfig.VersionEnabled, hv]
  · intro hv
    simp [heq, ResourceConfig.VersionEnabled, hv]
  · intro hv
    simp [heq, ResourceConfig.VersionEnabled, AList.lookup_eq_none.mpr hv]

/-- Under the enabled version `(g, v1)`, with only `gadgets` set explicitly, `widgets`
has no entry and resolves through its version. -/
theorem resource_without_entry_follows_version_witness :
    let c := (NewResourceConfig.EnableVersions [⟨"g", "v1"⟩]).DisableResources
      [⟨"g", "v1", "gadgets"⟩]
    (⟨"g", "v1", "widgets"⟩ : GroupVersionResource) ∉ c.ResourceConfigs ∧
    c.ResourceEnabled ⟨"g", "v1", "widgets"⟩ = true :=
  ⟨by decide,
    (resource_without_entry_follows_version _ ⟨"g", "v1", "widgets"⟩ (by decide)).2.1
      (by decide)⟩

end Storage

/-! ## The storage map returned by `v1Storage` next to an error -/

namespace Rest

open Storage

/-- C3, as stated, fails: with every networking resource enabled, the network policy
constructor succeeding and the ingress constructor failing, `v1Storage` returns the
ingress error together with a map that still holds the `networkpolicies` handler. -/
theorem v1Storage_error_keeps_earlier_handlers :
    (v1Storage allEnabledSource ingressFailingCtors ()).2 = some "ingress store failed" ∧
    (v1Storage allEnabledSource ingressFailingCtors ()).1.lookup "networkpolicies"
      = some "networkPolicyStorage" ∧
    (v1Storage allEnabledSource ingressFailingCtors ()).1.keys = ["networkpolicies"] := by
  refine ⟨by decide, by decide, by decide⟩

/-- C3, amended: if the constructor of some enabled resource fails, `v1Storage` aborts
and returns an error: the error of the first enabled resource whose constructor
fails, in the order networkpolicies, ingresses, ingressclasses.  The map returned
with it is the map built so far: the handlers of the enabled resources that come
before the failing one, and nothing for the failing resource or a later one. -/
theorem v1Storage_error_map {G E H : Type} (src : APIResourceConfigSource)
    (ctors : Constructors G E H) (g : G)
    (h :
      (src.ResourceEnabled (SchemeGroupVersion.WithResource "networkpolicies") = true ∧
        ∃ e, ctors.networkPolicyNewREST g = .error e) ∨
      (src.ResourceEnabled (SchemeGroupVersion.WithResource "ingresses") = true ∧
        ∃ e, ctors.ingressNewREST g = .error e) ∨
      (src.ResourceEnabled (SchemeGroupVersion.WithResource "ingressclasses") = true ∧
        ∃ e, ctors.ingressClassNewREST g = .error e)) :
    ∃ err, (v1Storage src ctors g).2 = some err ∧
      (
        (src.ResourceEnabled (SchemeGroupVersion.WithResource "networkpolicies") = true ∧
          ctors.networkPolicyNewREST g = .error err ∧
          (v1Storage src ctors g).1 = ∅) ∨
        (src.ResourceEnabled (SchemeGroupVersion.WithResource "ingresses") = true ∧
          ctors.ingressNewREST g = .error err ∧
          ((src.ResourceEnabled (SchemeGroupVersion.WithResource "networkpolicies") = false ∧
              (v1Storage src ctors g).1 = ∅) ∨
            ∃ np, src.ResourceEnabled (SchemeGroupVersion.WithResource "networkpolicies") = true ∧
              ctors.networkPolicyNewREST g = .ok np ∧
              (v1Storage src ctors g).1 = (∅ : StorageMap H).insert "networkpolicies" np)) ∨
        (src.ResourceEnabled (SchemeGroupVersion.WithResource "ingressclasses") = true ∧
          ctors.ingressClassNewREST g = .error err ∧
          ∃ m : StorageMap H,
            ((src.ResourceEnabled (SchemeGroupVersion.WithResource "networkpolicies") = false ∧
                m = ∅) ∨
              ∃ np, src.ResourceEnabled (SchemeGroupVersion.WithResource "networkpolicies") = true ∧
                ctors.networkPolicyNewREST g = .ok np ∧
                m = (∅ : StorageMap H).insert "networkpolicies" np) ∧
            ((src.ResourceEnabled (SchemeGroupVersion.WithResource "ingresses") = false ∧
                (v1Storage src ctors g).1 = m) ∨
              ∃ ing st, src.ResourceEnabled (SchemeGroupVersion.WithResource "ingresses") = true ∧
                ctors.ingressNewREST g = .ok (ing, st) ∧
                (v1Storage src ctors g).1
                  = (m.insert "ingresses" ing).insert "ingresses/status" st))) := by
  have hs : "ingresses" ++ "/status" = "ingresses/status" := by decide
  cases h1 : src.ResourceEnabled (SchemeGroupVersion.WithResource "networkpolicies") <;>
  cases h2 : src.ResourceEnabled (SchemeGroupVersion.WithResource "ingresses") <;>
  cases h3 : src.ResourceEnabled (SchemeGroupVersion.WithResource "ingressclasses") <;>
  cases c1 : ctors.networkPolicyNewREST g <;>
  rcases c2 : ctors.ingressNewREST g with _ | ⟨_, _⟩ <;>
  cases c3 : ctors.ingressClassNewREST g <;>
  simp [v1Storage, v1StorageBody, h1, h2, h3, c1, c2, c3, hs, bind, Except.bind, pure,
    Except.pure, throw, throwThe, MonadExceptOf.throw] at h ⊢ <;>
  exact ⟨_, _, ⟨rfl, rfl⟩, rfl⟩

/-- The amended statement at the resolver with everything enabled and a failing
ingress constructor: an error is returned, and it comes with the map built before
the failure. -/
theorem v1Storage_error_map_witness :
    (
      (allEnabledSource.ResourceEnabled (SchemeGroupVersion.WithResource "networkpolicies") = true ∧
        ∃ e, ingressFailingCtors.networkPolicyNewREST () = .error e) ∨
      (allEnabledSource.ResourceEnabled (SchemeGroupVersion.WithResource "ingresses") = true ∧
        ∃ e, ingressFailingCtors.ingressNewREST () = .error e) ∨
      (allEnabledSource.ResourceEnabled (SchemeGroupVersion.WithResource "ingressclasses") = true ∧
        ∃ e, ingressFailingCtors.ingressClassNewREST () = .error e)) ∧
    ∃ err, (v1Storage allEnabledSource ingressFailingCtors ()).2 = some err ∧
      (
        (allEnabledSource.ResourceEnabled (SchemeGroupVersion.WithResource "networkpolicies") = true ∧
          ingressFailingCtors.networkPolicyNewREST () = .error err ∧
          (v1Storage allEnabledSource ingressFailingCtors ()).1 = ∅) ∨
        (allEnabledSource.ResourceEnabled (SchemeGroupVersion.WithResource "ingresses") = true ∧
          ingressFailingCtors.ingressNewREST () = .error err ∧
          ((allEnabledSource.ResourceEnabled (SchemeGroupVersion.WithResource "networkpolicies") = false ∧
              (v1Storage allEnabledSource ingressFailingCtors ()).1 = ∅) ∨
            ∃ np, allEnabledSource.ResourceEnabled (SchemeGroupVersion.WithResource "networkpolicies") = true ∧
              ingressFailingCtors.networkPolicyNewREST () = .ok np ∧
              (v1Storage allEnabledSource ingressFailingCtors ()).1 = (∅ : StorageMap String).insert "networkpolicies" np)) ∨
        (allEnabledSource.ResourceEnabled (SchemeGroupVersion.WithResource "ingressclasses") = true ∧
          ingressFailingCtors.ingressClassNewREST () = .error err ∧
          ∃ m : StorageMap String,
            ((allEnabledSource.ResourceEnabled (SchemeGroupVersion.WithResource "networkpolicies") = false ∧
                m = ∅) ∨
              ∃ np, allEnabledSource.ResourceEnabled (SchemeGroupVersion.WithResource "networkpolicies") = true ∧
                ingressFailingCtors.networkPolicyNewREST () = .ok np ∧
                m = (∅ : StorageMap String).insert "networkpolicies" np) ∧
            ((allEnabledSource.ResourceEnabled (SchemeGroupVersion.WithResource "ingresses") = false ∧
                (v1Storage allEnabledSource ingressFailingCtors ()).1 = m) ∨
              ∃ ing st, allEnabledSource.ResourceEnabled (SchemeGroupVersion.WithResource "ingresses") = true ∧
                ingressFailingCtors.ingressNewREST () = .ok (ing, st) ∧
                (v1Storage allEnabledSource ingressFailingCtors ()).1
                  = (m.insert "ingresses" ing).insert "ingresses/status" st))) :=
  ⟨Or.inr (Or.inl ⟨by decide, "ingress store failed", rfl⟩),
    v1Storage_error_map allEnabledSource ingressFailingCtors ()
      (Or.inr (Or.inl ⟨by decide, "ingress store failed", rfl⟩))⟩

end Rest

/-! ## Group-level query and removal of resource preferences -/

namespace Storage

/-- C4: `AnyResourceForGroupEnabled(g)` is true exactly when some recorded version of
group `g` is enabled per `VersionEnabled`, or some recorded resource of group `g`
resolves enabled per `ResourceEnabled`; otherwise it is false. -/
theorem anyResourceForGroupEnabled_iff (c : ResourceConfig) (g : String) :
    c.AnyResourceForGroupEnabled g = true ↔
      (∃ v, v ∈ c.GroupVersionConfigs ∧ v.Group = g ∧ c.VersionEnabled v = true) ∨
      (∃ r, r ∈ c.ResourceConfigs ∧ r.Group = g ∧ c.ResourceEnabled r = true) := by
  unfold ResourceConfig.AnyResourceForGroupEnabled
  by_cases h1 : c.GroupVersionConfigs.keys.any
      (fun version => decide (version.Group = g) && c.VersionEnabled version) = true
  · rw [if_pos h1]
    simp only [true_iff]
    left
    obtain ⟨v, hv, hp⟩ := List.any_eq_true.mp h1
    simp only [Bool.and_eq_true, decide_eq_true_eq] at hp
    exact ⟨v, AList.mem_keys.mpr hv, hp.1, hp.2⟩
  · rw [if_neg h1]
    have hno : ¬ ∃ v, v ∈ c.GroupVersionConfigs ∧ v.Group = g ∧ c.VersionEnabled v = true := by
      rintro ⟨v, hv, hg, he⟩
      apply h1
      refine List.any_eq_true.mpr ⟨v, AList.mem_keys.mp hv, ?_⟩
      simp [hg, he]
    by_cases h2 : c.ResourceConfigs.keys.any
        (fun resource => decide (resource.Group = g) && c.ResourceEnabled resource) = true
    · rw [if_pos h2]
      simp only [true_iff]
      right
      obtain ⟨r, hr, hp⟩ := List.any_eq_true.mp h2
      simp only [Bool.and_eq_true, decide_eq_true_eq] at hp
      exact ⟨r, AList.mem_keys.mpr hr, hp.1, hp.2⟩
    · rw [if_neg h2]
      constructor
      · intro h
        exact absurd h (by simp)
      · rintro (h | ⟨r, hr, hg, he⟩)
        · exact absurd h hno
        · exfalso
          apply h2
          refine List.any_eq_true.mpr ⟨r, AList.mem_keys.mp hr, ?_⟩
          simp [hg, he]

/-- C5: after `RemoveMatchingResourcePreferences(p)`, a resource accepted by `p` resolves
exactly as its version does, on the unchanged version map, whatever explicit flag it
had before. -/
theorem removed_resource_follows_version (c : ResourceConfig)
    (p : GroupVersionResource → Bool) (r : GroupVersionResource) (h : p r = true) :
    (c.RemoveMatchingResourcePreferences p).ResourceEnabled r
        = c.VersionEnabled r.GroupVersion ∧
    (c.RemoveMatchingResourcePreferences p).GroupVersionConfigs = c.GroupVersionConfigs ∧
    r ∉ (c.RemoveMatchingResourcePreferences p).ResourceConfigs := by
  have hl := lookup_RemoveMatchingResourcePreferences c p r
  rw [if_pos h] at hl
  refine ⟨?_, rfl, AList.lookup_eq_none.mp hl⟩
  have hv : (c.RemoveMatchingResourcePreferences p).VersionEnabled r.GroupVersion
      = c.VersionEnabled r.GroupVersion := rfl
  unfold ResourceConfig.ResourceEnabled
  rw [hl, hv]
  cases c.VersionEnabled r.GroupVersion <;> rfl

/-- A resource explicitly disabled under an enabled version is enabled again once its
preference is removed. -/
theorem removed_resource_follows_version_witness :
    let c := (NewResourceConfig.EnableVersions [⟨"g", "v1"⟩]).DisableResources
      [⟨"g", "v1", "gadgets"⟩]
    let p : GroupVersionResource → Bool := fun r => decide (r.Version = "v1")
    (p ⟨"g", "v1", "gadgets"⟩ = true ∧ c.ResourceEnabled ⟨"g", "v1", "gadgets"⟩ = false) ∧
    (c.RemoveMatchingResourcePreferences p).ResourceEnabled ⟨"g", "v1", "gadgets"⟩ = true :=
  ⟨⟨by decide, by decide⟩,
    (removed_resource_follows_version
      ((NewResourceConfig.EnableVersions [⟨"g", "v1"⟩]).DisableResources
        [⟨"g", "v1", "gadgets"⟩])
      (fun r => decide (r.Version = "v1")) ⟨"g", "v1", "gadgets"⟩ (by decide)).1.trans
      (by decide)⟩

/-- C6: after `RemoveMatchingResourcePreferences(p)` the resource map holds exactly the
old entries whose key `p` rejects, each with its old flag: a key accepted by `p` is
absent, any other key reads as before (present with the same flag, or absent), and
the version map is unchanged. -/
theorem removeMatchingResourcePreferences_entries (c : ResourceConfig)
    (p : GroupVersionResource → Bool) :
    (∀ r, (c.RemoveMatchingResourcePreferences p).ResourceConfigs.lookup r
        = if p r = true then none else c.ResourceConfigs.lookup r) ∧
    (∀ r, r ∈ (c.RemoveMatchingResourcePreferences p).ResourceConfigs
        ↔ r ∈ c.ResourceConfigs ∧ p r = false) ∧
    (c.RemoveMatchingResourcePreferences p).GroupVersionConfigs = c.GroupVersionConfigs := by
  refine ⟨lookup_RemoveMatchingResourcePreferences c p, ?_, rfl⟩
  intro r
  rw [← AList.lookup_isSome, lookup_RemoveMatchingResourcePreferences, ← AList.lookup_isSome]
  by_cases h : p r = true
  · simp [h]
  · simp [h]

end Storage

/-! ## Bulk operations on recorded versions -/

namespace Storage

/-- A loop of unconditional writes adds exactly the keys written. -/
theorem mem_foldl_insert {K : Type} [DecidableEq K] (b : Bool) (l : List K)
    (m : BoolMap K) (k : K) :
    k ∈ l.foldl (fun acc x => acc.insert x b) m ↔ k ∈ l ∨ k ∈ m := by
  rw [← AList.lookup_isSome, lookup_foldl_insert, ← AList.lookup_isSome]
  by_cases h : k ∈ l
  · simp [h]
  · simp [h]

/-- The matching-versions loops keep the key set of the version map. -/
theorem mem_matchingVersions (b : Bool) (m : BoolMap GroupVersion)
    (matcher : GroupVersion → Bool) (v : GroupVersion) :
    v ∈ m.keys.foldl (fun acc k => if matcher k then acc.insert k b else acc) m ↔ v ∈ m := by
  rw [mem_foldl_insert_if]
  constructor
  · rintro (⟨h, _⟩ | h)
    · exact AList.mem_keys.mpr h
    · exact h
  · intro h
    exact Or.inr h

/-- C7: after `DisableMatchingVersions(m)` (respectively `EnableMatchingVersions(m)`) a
recorded version accepted by `m` has flag false (respectively true), and a recorded
version rejected by `m` keeps its old flag. -/
theorem matchingVersions_flags (c : ResourceConfig) (m : GroupVersion → Bool)
    (k : GroupVersion) (hk : k ∈ c.GroupVersionConfigs) :
    (m k = true →
      (c.DisableMatchingVersions m).GroupVersionConfigs.lookup k = some false ∧
      (c.EnableMatchingVersions m).GroupVersionConfigs.lookup k = some true) ∧
    (m k = false →
      (c.DisableMatchingVersions m).GroupVersionConfigs.lookup k
        = c.GroupVersionConfigs.lookup k ∧
      (c.EnableMatchingVersions m).GroupVersionConfigs.lookup k
        = c.GroupVersionConfigs.lookup k) := by
  unfold ResourceConfig.DisableMatchingVersions ResourceConfig.EnableMatchingVersions
  simp only [lookup_matchingVersions]
  constructor
  · intro hm
    simp [hk, hm]
  · intro hm
    simp [hm]

/-- With `(g, v1)` and `(g, v2)` both recorded as enabled, disabling the versions named
`v1` turns `(g, v1)` off. -/
theorem matchingVersions_flags_witness :
    let c := NewResourceConfig.EnableVersions [⟨"g", "v1"⟩, ⟨"g", "v2"⟩]
    let m : GroupVersion → Bool := fun k => decide (k.Version = "v1")
    ((⟨"g", "v1"⟩ : GroupVersion) ∈ c.GroupVersionConfigs ∧ m ⟨"g", "v1"⟩ = true) ∧
    (c.DisableMatchingVersions m).GroupVersionConfigs.lookup ⟨"g", "v1"⟩ = some false :=
  ⟨⟨by decide, by decide⟩,
    ((matchingVersions_flags (NewResourceConfig.EnableVersions [⟨"g", "v1"⟩, ⟨"g", "v2"⟩])
      (fun k => decide (k.Version = "v1")) ⟨"g", "v1"⟩ (by decide)).1 (by decide)).1⟩

/-- C8: `DisableMatchingVersions(m)` and `EnableMatchingVersions(m)` keep the key set of
the version map and leave the resource map unchanged: a version that was not
recorded is still not recorded and still reads disabled, even when `m` accepts it,
and `ResourceEnabled` is unchanged for every resource with an explicit entry. -/
theorem matchingVersions_frame (c : ResourceConfig) (m : GroupVersion → Bool) :
    (∀ v, (v ∈ (c.DisableMatchingVersions m).GroupVersionConfigs ↔ v ∈ c.GroupVersionConfigs) ∧
      (v ∈ (c.EnableMatchingVersions m).GroupVersionConfigs ↔ v ∈ c.GroupVersionConfigs)) ∧
    (c.DisableMatchingVersions m).ResourceConfigs = c.ResourceConfigs ∧
    (c.EnableMatchingVersions m).ResourceConfigs = c.ResourceConfigs ∧
    (∀ v, v ∉ c.GroupVersionConfigs →
      (c.DisableMatchingVersions m).VersionEnabled v = false ∧
      (c.EnableMatchingVersions m).VersionEnabled v = false) ∧
    (∀ r, r ∈ c.ResourceConfigs →
      (c.DisableMatchingVersions m).ResourceEnabled r = c.ResourceEnabled r ∧
      (c.EnableMatchingVersions m).ResourceEnabled r = c.ResourceEnabled r) := by
  refine ⟨?_, rfl, rfl, ?_, ?_⟩
  · intro v
    exact ⟨mem_matchingVersions false _ m v, mem_matchingVersions true _ m v⟩
  · intro v hv
    have hnone : c.GroupVersionConfigs.lookup v = none := AList.lookup_eq_none.mpr hv
    unfold ResourceConfig.VersionEnabled ResourceConfig.DisableMatchingVersions
      ResourceConfig.EnableMatchingVersions
    simp only [lookup_matchingVersions]
    simp [hv, hnone]
  · intro r hr
    obtain ⟨b, hb⟩ := Option.isSome_iff_exists.mp (AList.lookup_isSome.mpr hr)
    have hd : (c.DisableMatchingVersions m).ResourceConfigs.lookup r = some b := hb
    have he : (c.EnableMatchingVersions m).ResourceConfigs.lookup r = some b := hb
    simp [ResourceConfig.ResourceEnabled, hd, he, hb]

/-- The version `(g, v9)` was never recorded: a matcher accepting everything leaves it
unrecorded and disabled, while the explicitly enabled `widgets` stays enabled. -/
theorem matchingVersions_frame_witness :
    let c := (NewResourceConfig.EnableVersions [⟨"g", "v1"⟩]).EnableResources
      [⟨"g", "v9", "widgets"⟩]
    ((⟨"g", "v9"⟩ : GroupVersion) ∉ c.GroupVersionConfigs ∧
      (⟨"g", "v9", "widgets"⟩ : GroupVersionResource) ∈ c.ResourceConfigs) ∧
    ((c.EnableMatchingVersions (fun _ => true)).VersionEnabled ⟨"g", "v9"⟩ = false ∧
      (c.DisableMatchingVersions (fun _ => true)).ResourceEnabled ⟨"g", "v9", "widgets"⟩
        = true) :=
  ⟨⟨by decide, by decide⟩,
    ((matchingVersions_frame
      ((NewResourceConfig.EnableVersions [⟨"g", "v1"⟩]).EnableResources
        [⟨"g", "v9", "widgets"⟩]) (fun _ => true)).2.2.2.1 ⟨"g", "v9"⟩ (by decide)).2,
    ((matchingVersions_frame
      ((NewResourceConfig.EnableVersions [⟨"g", "v1"⟩]).EnableResources
        [⟨"g", "v9", "widgets"⟩]) (fun _ => true)).2.2.2.2 ⟨"g", "v9", "widgets"⟩
        (by decide)).1.trans (by decide)⟩

end Storage

/-! ## Versions never passed to `EnableVersions` or `DisableVersions`; last write wins -/

namespace Storage

/-- A call that does not pass `v` to `EnableVersions` or `DisableVersions` does not
record `v` in the version map. -/
theorem not_mem_apply (v : GroupVersion) (op : Op) (o : ResourceConfig)
    (hop : op.passesVersion v = false) (hv : v ∉ o.GroupVersionConfigs) :
    v ∉ (op.apply o).GroupVersionConfigs := by
  cases op with
  | EnableVersions versions =>
    have hnot : v ∉ versions := by simpa [Op.passesVersion] using hop
    intro hmem
    rcases (mem_foldl_insert true versions o.GroupVersionConfigs v).mp hmem with h | h
    · exact hnot h
    · exact hv h
  | DisableVersions versions =>
    have hnot : v ∉ versions := by simpa [Op.passesVersion] using hop
    intro hmem
    rcases (mem_foldl_insert false versions o.GroupVersionConfigs v).mp hmem with h | h
    · exact hnot h
    · exact hv h
  | EnableResources resources => exact hv
  | DisableResources resources => exact hv
  | EnableMatchingVersions matcher =>
    intro hmem
    exact hv ((mem_matchingVersions true o.GroupVersionConfigs matcher v).mp hmem)
  | DisableMatchingVersions matcher =>
    intro hmem
    exact hv ((mem_matchingVersions false o.GroupVersionConfigs matcher v).mp hmem)
  | RemoveMatchingResourcePreferences matcher => exact hv

/-- A sequence of calls none of which passes `v` to `EnableVersions` or
`DisableVersions` does not record `v` in the version map. -/
theorem not_mem_runOps (v : GroupVersion) (ops : List Op) (o : ResourceConfig)
    (hops : ∀ op ∈ ops, op.passesVersion v = false) (hv : v ∉ o.GroupVersionConfigs) :
    v ∉ (runOps ops o).GroupVersionConfigs := by
  induction ops generalizing o with
  | nil => exact hv
  | cons op rest ih =>
    have hstep : v ∉ (op.apply o).GroupVersionConfigs :=
      not_mem_apply v op o (hops op (List.mem_cons_self op rest)) hv
    exact ih (op.apply o) (fun op' h' => hops op' (List.mem_cons_of_mem op h')) hstep

/-- C9: after any finite sequence of public operations on `NewResourceConfig()` in which
`v` is never an argument of `EnableVersions` or `DisableVersions`, `VersionEnabled(v)`
is false; and in every state `VersionEnabled(v)` is the stored flag when `v` is
recorded and false when it is not. -/
theorem versionEnabled_untouched (v : GroupVersion) (ops : List Op)
    (h : ∀ op ∈ ops, op.passesVersion v = false) :
    (runOps ops NewResourceConfig).VersionEnabled v = false ∧
    (∀ (c : ResourceConfig) (flag : Bool),
      c.GroupVersionConfigs.lookup v = some flag → c.VersionEnabled v = flag) ∧
    (∀ c : ResourceConfig, v ∉ c.GroupVersionConfigs → c.VersionEnabled v = false) := by
  have habs : ∀ c : ResourceConfig, v ∉ c.GroupVersionConfigs → c.VersionEnabled v = false := by
    intro c hc
    simp [ResourceConfig.VersionEnabled, AList.lookup_eq_none.mpr hc]
  refine ⟨?_, ?_, habs⟩
  · exact habs _ (not_mem_runOps v ops NewResourceConfig h (AList.not_mem_empty v))
  · intro c flag hc
    simp [ResourceConfig.VersionEnabled, hc]

/-- The version `(g, v2)` stays disabled through a sequence that enables `(g, v1)`,
enables a resource under `(g, v2)`, and runs the three bulk operations with matchers
accepting everything. -/
theorem versionEnabled_untouched_witness :
    (runOps
      [Op.EnableVersions [⟨"g", "v1"⟩],
        Op.EnableResources [⟨"g", "v2", "widgets"⟩],
        Op.EnableMatchingVersions (fun _ => true),
        Op.DisableVersions [⟨"h", "v2"⟩],
        Op.DisableMatchingVersions (fun k => decide (k.Group = "h")),
        Op.RemoveMatchingResourcePreferences (fun _ => true)]
      NewResourceConfig).VersionEnabled ⟨"g", "v2"⟩ = false :=
  (versionEnabled_untouched ⟨"g", "v2"⟩ _ (by decide)).1

/-- C10: last write wins, from every prior state: after `EnableResources` then
`DisableResources` naming `r` among its arguments, `ResourceEnabled(r)` is false, and
in the reversed order it is true; likewise `VersionEnabled(v)` after `EnableVersions`
then `DisableVersions` is false, and true in the reversed order.  The earlier call
carries any arguments (`r`, respectively `v`, among them or not) and the later call
any arguments besides the key. -/
theorem last_write_wins (c : ResourceConfig)
    (r : GroupVersionResource) (rs₁ rs₂ : List GroupVersionResource)
    (v : GroupVersion) (vs₁ vs₂ : List GroupVersion)
    (hr₂ : r ∈ rs₂) (hv₂ : v ∈ vs₂) :
    ((c.EnableResources rs₁).DisableResources rs₂).ResourceEnabled r = false ∧
    ((c.DisableResources rs₁).EnableResources rs₂).ResourceEnabled r = true ∧
    ((c.EnableVersions vs₁).DisableVersions vs₂).VersionEnabled v = false ∧
    ((c.DisableVersions vs₁).EnableVersions vs₂).VersionEnabled v = true := by
  refine ⟨?_, ?_, ?_, ?_⟩
  · simp [ResourceConfig.ResourceEnabled, ResourceConfig.DisableResources,
      lookup_foldl_insert, hr₂]
  · simp [ResourceConfig.ResourceEnabled, ResourceConfig.EnableResources,
      lookup_foldl_insert, hr₂]
  · simp [ResourceConfig.VersionEnabled, ResourceConfig.DisableVersions,
      lookup_foldl_insert, hv₂]
  · simp [ResourceConfig.VersionEnabled, ResourceConfig.EnableVersions,
      lookup_foldl_insert, hv₂]

/-- Last write wins on a state where the key already had the opposite setting and
where the calls carry other keys too. -/
theorem last_write_wins_witness :
    let c := (NewResourceConfig.DisableVersions [⟨"g", "v1"⟩]).EnableResources
      [⟨"g", "v1", "widgets"⟩]
    ((c.EnableResources [⟨"g", "v1", "widgets"⟩, ⟨"g", "v1", "gadgets"⟩]).DisableResources
        [⟨"g", "v2", "gadgets"⟩, ⟨"g", "v1", "widgets"⟩]).ResourceEnabled
        ⟨"g", "v1", "widgets"⟩ = false ∧
    ((c.DisableVersions [⟨"g", "v1"⟩]).EnableVersions
        [⟨"g", "v1"⟩, ⟨"g", "v2"⟩]).VersionEnabled ⟨"g", "v1"⟩ = true :=
  have key := last_write_wins
    ((NewResourceConfig.DisableVersions [⟨"g", "v1"⟩]).EnableResources [⟨"g", "v1", "widgets"⟩])
    ⟨"g", "v1", "widgets"⟩ [⟨"g", "v1", "widgets"⟩, ⟨"g", "v1", "gadgets"⟩]
    [⟨"g", "v2", "gadgets"⟩, ⟨"g", "v1", "widgets"⟩]
    ⟨"g", "v1"⟩ [⟨"g", "v1"⟩] [⟨"g", "v1"⟩, ⟨"g", "v2"⟩]
    (by decide) (by decide)
  ⟨key.1, key.2.2.2⟩

end Storage

/-! ## Idempotence and frame of the single-key operations -/

namespace Storage

/-- Two maps that read the same at every key hold the same entries. -/
theorem entries_perm_of_lookup_eq {K : Type} [DecidableEq K] (m₁ m₂ : BoolMap K)
    (h : ∀ k, m₁.lookup k = m₂.lookup k) : m₁.entries.Perm m₂.entries := by
  apply List.lookup_ext m₁.nodupKeys m₂.nodupKeys
  intro k b
  have hk := h k
  unfold AList.lookup at hk
  rw [hk]

/-- C11: `EnableVersions` is idempotent: applying `EnableVersions(vs)` twice in a row
gives the same state as applying it once: the version map reads the same at every
key and holds the same entries, and the resource map is the same. -/
theorem enableVersions_idempotent (c : ResourceConfig) (vs : List GroupVersion) :
    (∀ v, ((c.EnableVersions vs).EnableVersions vs).GroupVersionConfigs.lookup v
        = (c.EnableVersions vs).GroupVersionConfigs.lookup v) ∧
    ((c.EnableVersions vs).EnableVersions vs).GroupVersionConfigs.entries.Perm
        (c.EnableVersions vs).GroupVersionConfigs.entries ∧
    ((c.EnableVersions vs).EnableVersions vs).ResourceConfigs
        = (c.EnableVersions vs).ResourceConfigs := by
  have hl : ∀ v, ((c.EnableVersions vs).EnableVersions vs).GroupVersionConfigs.lookup v
      = (c.EnableVersions vs).GroupVersionConfigs.lookup v := by
    intro v
    simp only [ResourceConfig.EnableVersions, lookup_foldl_insert]
    by_cases hv : v ∈ vs
    · simp [hv]
    · simp [hv]
  exact ⟨hl, entries_perm_of_lookup_eq _ _ hl, rfl⟩

/-- C12: `EnableVersions(vs)` and `DisableVersions(vs)` leave the resource map unchanged
and, for every version not in `vs`, its presence and flag in the version map;
symmetrically `EnableResources(rs)` and `DisableResources(rs)` leave the version map
and every resource entry not in `rs` unchanged. -/
theorem single_key_operations_frame (c : ResourceConfig) (vs : List GroupVersion)
    (rs : List GroupVersionResource) :
    ((c.EnableVersions vs).ResourceConfigs = c.ResourceConfigs ∧
      (c.DisableVersions vs).ResourceConfigs = c.ResourceConfigs) ∧
    (∀ v, v ∉ vs →
      (c.EnableVersions vs).GroupVersionConfigs.lookup v = c.GroupVersionConfigs.lookup v ∧
      (c.DisableVersions vs).GroupVersionConfigs.lookup v = c.GroupVersionConfigs.lookup v ∧
      (v ∈ (c.EnableVersions vs).GroupVersionConfigs ↔ v ∈ c.GroupVersionConfigs) ∧
      (v ∈ (c.DisableVersions vs).GroupVersionConfigs ↔ v ∈ c.GroupVersionConfigs)) ∧
    ((c.EnableResources rs).GroupVersionConfigs = c.GroupVersionConfigs ∧
      (c.DisableResources rs).GroupVersionConfigs = c.GroupVersionConfigs) ∧
    (∀ r, r ∉ rs →
      (c.EnableResources rs).ResourceConfigs.lookup r = c.ResourceConfigs.lookup r ∧
      (c.DisableResources rs).ResourceConfigs.lookup r = c.ResourceConfigs.lookup r ∧
      (r ∈ (c.EnableResources rs).ResourceConfigs ↔ r ∈ c.ResourceConfigs) ∧
      (r ∈ (c.DisableResources rs).ResourceConfigs ↔ r ∈ c.ResourceConfigs)) := by
  refine ⟨⟨rfl, rfl⟩, ?_, ⟨rfl, rfl⟩, ?_⟩
  · intro v hv
    simp [ResourceConfig.EnableVersions, ResourceConfig.DisableVersions,
      lookup_foldl_insert, mem_foldl_insert, hv]
  · intro r hr
    simp [ResourceConfig.EnableResources, ResourceConfig.DisableResources,
      lookup_foldl_insert, mem_foldl_insert, hr]

/-- Enabling `(g, v2)` leaves the disabled version `(g, v1)` and the resource entry of
`gadgets` as they were. -/
theorem single_key_operations_frame_witness :
    let c := (NewResourceConfig.DisableVersions [⟨"g", "v1"⟩]).DisableResources
      [⟨"g", "v1", "gadgets"⟩]
    (⟨"g", "v1"⟩ : GroupVersion) ∉ [(⟨"g", "v2"⟩ : GroupVersion)] ∧
    (c.EnableVersions [⟨"g", "v2"⟩]).GroupVersionConfigs.lookup ⟨"g", "v1"⟩ = some false ∧
    (c.EnableVersions [⟨"g", "v2"⟩]).ResourceConfigs.lookup ⟨"g", "v1", "gadgets"⟩
      = some false :=
  have key := single_key_operations_frame
    ((NewResourceConfig.DisableVersions [⟨"g", "v1"⟩]).DisableResources
      [⟨"g", "v1", "gadgets"⟩]) [⟨"g", "v2"⟩] []
  ⟨by decide, ((key.2.1 ⟨"g", "v1"⟩ (by decide)).1).trans (by decide),
    (congrArg (fun m => m.lookup ⟨"g", "v1", "gadgets"⟩) key.1.1).trans (by decide)⟩

end Storage

/-! ## The storage provider: successful pass and failure propagation -/

namespace Rest

open Storage

/-- Reading a storage map after one write. -/
theorem lookup_insert_ite {H : Type} (m : StorageMap H) (a k : String) (b : H) :
    (m.insert a b).lookup k = if k = a then some b else m.lookup k := by
  by_cases h : k = a
  · subst h
    simp [AList.lookup_insert]
  · simp [h, AList.lookup_insert_ne h]

/-- C13: when the constructor of every enabled resource succeeds, `v1Storage` returns no
error and a map holding `networkpolicies` iff that resource is enabled, `ingresses`
and `ingresses/status` (the two handlers of one constructor call) iff ingresses is
enabled, `ingressclasses` iff that resource is enabled, and no other key; the
constructors of disabled resources have no influence on the result. -/
theorem v1Storage_success {G E H : Type} (src : APIResourceConfigSource)
    (ctors : Constructors G E H) (g : G) (np ing st ic : H)
    (h1 : src.ResourceEnabled (SchemeGroupVersion.WithResource "networkpolicies") = true →
      ctors.networkPolicyNewREST g = .ok np)
    (h2 : src.ResourceEnabled (SchemeGroupVersion.WithResource "ingresses") = true →
      ctors.ingressNewREST g = .ok (ing, st))
    (h3 : src.ResourceEnabled (SchemeGroupVersion.WithResource "ingressclasses") = true →
      ctors.ingressClassNewREST g = .ok ic) :
    (v1Storage src ctors g).2 = none ∧
    (∀ k, (v1Storage src ctors g).1.lookup k =
      if k = "networkpolicies" then
        (if src.ResourceEnabled (SchemeGroupVersion.WithResource "networkpolicies") = true
          then some np else none)
      else if k = "ingresses" then
        (if src.ResourceEnabled (SchemeGroupVersion.WithResource "ingresses") = true
          then some ing else none)
      else if k = "ingresses/status" then
        (if src.ResourceEnabled (SchemeGroupVersion.WithResource "ingresses") = true
          then some st else none)
      else if k = "ingressclasses" then
        (if src.ResourceEnabled (SchemeGroupVersion.WithResource "ingressclasses") = true
          then some ic else none)
      else none) ∧
    (∀ ctors2 : Constructors G E H,
      (src.ResourceEnabled (SchemeGroupVersion.WithResource "networkpolicies") = true →
        ctors2.networkPolicyNewREST g = .ok np) →
      (src.ResourceEnabled (SchemeGroupVersion.WithResource "ingresses") = true →
        ctors2.ingressNewREST g = .ok (ing, st)) →
      (src.ResourceEnabled (SchemeGroupVersion.WithResource "ingressclasses") = true →
        ctors2.ingressClassNewREST g = .ok ic) →
      v1Storage src ctors2 g = v1Storage src ctors g) := by
  have hs : "ingresses" ++ "/status" = "ingresses/status" := by decide
  have key : ∀ c : Constructors G E H,
      (src.ResourceEnabled (SchemeGroupVersion.WithResource "networkpolicies") = true →
        c.networkPolicyNewREST g = .ok np) →
      (src.ResourceEnabled (SchemeGroupVersion.WithResource "ingresses") = true →
        c.ingressNewREST g = .ok (ing, st)) →
      (src.ResourceEnabled (SchemeGroupVersion.WithResource "ingressclasses") = true →
        c.ingressClassNewREST g = .ok ic) →
      v1Storage src c g =
        ((fun m : StorageMap H =>
            if src.ResourceEnabled (SchemeGroupVersion.WithResource "ingressclasses") = true
            then m.insert "ingressclasses" ic else m)
          ((fun m : StorageMap H =>
            if src.ResourceEnabled (SchemeGroupVersion.WithResource "ingresses") = true
            then (m.insert "ingresses" ing).insert "ingresses/status" st else m)
          (if src.ResourceEnabled (SchemeGroupVersion.WithResource "networkpolicies") = true
            then (∅ : StorageMap H).insert "networkpolicies" np else ∅)), none) := by
    intro c k1 k2 k3
    cases e1 : src.ResourceEnabled (SchemeGroupVersion.WithResource "networkpolicies") <;>
    cases e2 : src.ResourceEnabled (SchemeGroupVersion.WithResource "ingresses") <;>
    cases e3 : src.ResourceEnabled (SchemeGroupVersion.WithResource "ingressclasses") <;>
    simp [v1Storage, v1StorageBody, e1, e2, e3, k1, k2, k3, hs, bind, Except.bind, pure,
      Except.pure] at k1 k2 k3 ⊢
  refine ⟨?_, ?_, ?_⟩
  · rw [key ctors h1 h2 h3]
  · intro k
    rw [key ctors h1 h2 h3]
    cases e1 : src.ResourceEnabled (SchemeGroupVersion.WithResource "networkpolicies") <;>
    cases e2 : src.ResourceEnabled (SchemeGroupVersion.WithResource "ingresses") <;>
    cases e3 : src.ResourceEnabled (SchemeGroupVersion.WithResource "ingressclasses") <;>
    simp only [lookup_insert_ite, AList.lookup_empty, if_true, if_false, Bool.false_eq_true] <;>
    split_ifs <;>
    simp_all
  · intro ctors2 k1 k2 k3
    rw [key ctors2 k1 k2 k3, key ctors h1 h2 h3]

end Rest

namespace Rest

open Storage

/-- A successful pass on a resolver that enables only ingresses (by an explicit
resource entry): the map holds the two ingress handlers, while the failing
constructors of the two disabled resources go unnoticed. -/
theorem v1Storage_success_witness :
    (v1Storage (G := Unit) (E := String) (H := String)
        (NewResourceConfig.EnableResources [SchemeGroupVersion.WithResource "ingresses"]).toSource
        { networkPolicyNewREST := fun _ => .error "network policy store failed"
          ingressNewREST := fun _ => .ok ("ingressStorage", "ingressStatusStorage")
          ingressClassNewREST := fun _ => .error "ingress class store failed" } ()).2 = none ∧
    (v1Storage (G := Unit) (E := String) (H := String)
        (NewResourceConfig.EnableResources [SchemeGroupVersion.WithResource "ingresses"]).toSource
        { networkPolicyNewREST := fun _ => .error "network policy store failed"
          ingressNewREST := fun _ => .ok ("ingressStorage", "ingressStatusStorage")
          ingressClassNewREST := fun _ => .error "ingress class store failed" } ()).1.keys
      = ["ingresses/status", "ingresses"] :=
  ⟨(v1Storage_success (G := Unit) (E := String) (H := String)
      (NewResourceConfig.EnableResources [SchemeGroupVersion.WithResource "ingresses"]).toSource
      { networkPolicyNewREST := fun _ => .error "network policy store failed"
        ingressNewREST := fun _ => .ok ("ingressStorage", "ingressStatusStorage")
        ingressClassNewREST := fun _ => .error "ingress class store failed" } ()
      "networkPolicyStorage" "ingressStorage" "ingressStatusStorage" "ingressClassStorage"
      (fun h => absurd h (by decide)) (fun _ => rfl) (fun h => absurd h (by decide))).1,
    by decide⟩

/-- C14: `v1Storage` returns an error iff some enabled resource's constructor fails, and
that error is, unmodified, the one of the first such resource in the order
networkpolicies, ingresses, ingressclasses; `NewRESTStorage` then returns the same
error with the empty `APIGroupInfo` and `false`.  A failing constructor of a
disabled resource produces no error. -/
theorem v1Storage_error_iff {G E H I : Type} (info : APIGroupInfoOps H I)
    (src : APIResourceConfigSource) (ctors : Constructors G E H) (g : G) :
    (v1Storage src ctors g).2 = firstConstructionError src ctors g ∧
    ((∃ err, (v1Storage src ctors g).2 = some err) ↔
      (src.ResourceEnabled (SchemeGroupVersion.WithResource "networkpolicies") = true ∧
        ∃ err, ctors.networkPolicyNewREST g = .error err) ∨
      (src.ResourceEnabled (SchemeGroupVersion.WithResource "ingresses") = true ∧
        ∃ err, ctors.ingressNewREST g = .error err) ∨
      (src.ResourceEnabled (SchemeGroupVersion.WithResource "ingressclasses") = true ∧
        ∃ err, ctors.ingressClassNewREST g = .error err)) ∧
    (∀ err, (v1Storage src ctors g).2 = some err →
      NewRESTStorage info src ctors g = (info.zero, false, some err)) ∧
    ((v1Storage src ctors g).2 = none →
      (NewRESTStorage info src ctors g).2 = (true, none)) := by
  have hs : "ingresses" ++ "/status" = "ingresses/status" := by decide
  have hnew : ∀ err, (v1Storage src ctors g).2 = some err →
      NewRESTStorage info src ctors g = (info.zero, false, some err) := by
    intro err herr
    unfold NewRESTStorage
    rcases hv : v1Storage src ctors g with ⟨m, e⟩
    rw [hv] at herr
    simp only at herr
    subst herr
    rfl
  have hok : (v1Storage src ctors g).2 = none →
      (NewRESTStorage info src ctors g).2 = (true, none) := by
    intro hnone
    unfold NewRESTStorage
    rcases hv : v1Storage src ctors g with ⟨m, e⟩
    rw [hv] at hnone
    simp only at hnone
    subst hnone
    simp only
    split_ifs <;> rfl
  refine ⟨?_, ?_, hnew, hok⟩
  · cases e1 : src.ResourceEnabled (SchemeGroupVersion.WithResource "networkpolicies") <;>
    cases e2 : src.ResourceEnabled (SchemeGroupVersion.WithResource "ingresses") <;>
    cases e3 : src.ResourceEnabled (SchemeGroupVersion.WithResource "ingressclasses") <;>
    cases c1 : ctors.networkPolicyNewREST g <;>
    rcases c2 : ctors.ingressNewREST g with _ | ⟨_, _⟩ <;>
    cases c3 : ctors.ingressClassNewREST g <;>
    simp [v1Storage, v1StorageBody, firstConstructionError, candidateFailure, e1, e2, e3,
      c1, c2, c3, hs, bind, Except.bind, pure, Except.pure, throw, throwThe,
      MonadExceptOf.throw]
  · cases e1 : src.ResourceEnabled (SchemeGroupVersion.WithResource "networkpolicies") <;>
    cases e2 : src.ResourceEnabled (SchemeGroupVersion.WithResource "ingresses") <;>
    cases e3 : src.ResourceEnabled (SchemeGroupVersion.WithResource "ingressclasses") <;>
    cases c1 : ctors.networkPolicyNewREST g <;>
    rcases c2 : ctors.ingressNewREST g with _ | ⟨_, _⟩ <;>
    cases c3 : ctors.ingressClassNewREST g <;>
    simp [v1Storage, v1StorageBody, e1, e2, e3, c1, c2, c3, hs, bind, Except.bind, pure,
      Except.pure, throw, throwThe, MonadExceptOf.throw]

end Rest

/-! ## Scenarios, overrides and the group-level gate -/

namespace Storage

/-- A version that reads enabled makes the group-level query true for its group. -/
theorem anyResource_of_enabled_version (c : ResourceConfig) (v : GroupVersion)
    (hv : c.VersionEnabled v = true) : c.AnyResourceForGroupEnabled v.Group = true := by
  have hmem : v ∈ c.GroupVersionConfigs.keys := by
    apply AList.mem_keys.mp
    apply AList.lookup_isSome.mp
    unfold ResourceConfig.VersionEnabled at hv
    cases hl : c.GroupVersionConfigs.lookup v with
    | none => rw [hl] at hv; exact absurd hv (by simp)
    | some b => rfl
  have hany : c.GroupVersionConfigs.keys.any
      (fun version => decide (version.Group = v.Group) && c.VersionEnabled version) = true :=
    List.any_eq_true.mpr ⟨v, hmem, by simp [hv]⟩
  unfold ResourceConfig.AnyResourceForGroupEnabled
  rw [if_pos hany]

/-- A recorded resource that resolves enabled makes the group-level query true for
its group. -/
theorem anyResource_of_enabled_entry (c : ResourceConfig) (r : GroupVersionResource)
    (hr : r ∈ c.ResourceConfigs) (he : c.ResourceEnabled r = true) :
    c.AnyResourceForGroupEnabled r.Group = true := by
  have hany : c.ResourceConfigs.keys.any
      (fun resource => decide (resource.Group = r.Group) && c.ResourceEnabled resource) = true :=
    List.any_eq_true.mpr ⟨r, AList.mem_keys.mp hr, by simp [he]⟩
  unfold ResourceConfig.AnyResourceForGroupEnabled
  rw [if_pos hany]
  split_ifs <;> rfl

/-- When the group-level query is true, a recorded version of the group reads enabled
or a recorded resource of the group resolves enabled. -/
theorem anyResource_cases (c : ResourceConfig) (g : String)
    (h : c.AnyResourceForGroupEnabled g = true) :
    (∃ v, v.Group = g ∧ c.VersionEnabled v = true) ∨
    (∃ r, r.Group = g ∧ c.ResourceEnabled r = true) := by
  unfold ResourceConfig.AnyResourceForGroupEnabled at h
  by_cases h1 : c.GroupVersionConfigs.keys.any
      (fun version => decide (version.Group = g) && c.VersionEnabled version) = true
  · obtain ⟨v, _, hp⟩ := List.any_eq_true.mp h1
    simp only [Bool.and_eq_true, decide_eq_true_eq] at hp
    exact Or.inl ⟨v, hp.1, hp.2⟩
  · rw [if_neg h1] at h
    by_cases h2 : c.ResourceConfigs.keys.any
        (fun resource => decide (resource.Group = g) && c.ResourceEnabled resource) = true
    · obtain ⟨r, _, hp⟩ := List.any_eq_true.mp h2
      simp only [Bool.and_eq_true, decide_eq_true_eq] at hp
      exact Or.inr ⟨r, hp.1, hp.2⟩
    · rw [if_neg h2] at h
      exact absurd h (by simp)

/-- C15: for every group `g`, from `NewResourceConfig()`, after `EnableVersions((g, v1))`
and `DisableResources((g, v1, gadgets))` in either order, `widgets` (never set)
resolves enabled, `gadgets` resolves disabled, and `AnyResourceForGroupEnabled(g)`
is true. -/
theorem scenario_enabled_version_disabled_resource (g : String) :
    ((NewResourceConfig.EnableVersions [⟨g, "v1"⟩]).DisableResources
        [⟨g, "v1", "gadgets"⟩]).ResourceEnabled ⟨g, "v1", "widgets"⟩ = true ∧
    ((NewResourceConfig.EnableVersions [⟨g, "v1"⟩]).DisableResources
        [⟨g, "v1", "gadgets"⟩]).ResourceEnabled ⟨g, "v1", "gadgets"⟩ = false ∧
    ((NewResourceConfig.EnableVersions [⟨g, "v1"⟩]).DisableResources
        [⟨g, "v1", "gadgets"⟩]).AnyResourceForGroupEnabled g = true ∧
    ((NewResourceConfig.DisableResources [⟨g, "v1", "gadgets"⟩]).EnableVersions
        [⟨g, "v1"⟩]).ResourceEnabled ⟨g, "v1", "widgets"⟩ = true ∧
    ((NewResourceConfig.DisableResources [⟨g, "v1", "gadgets"⟩]).EnableVersions
        [⟨g, "v1"⟩]).ResourceEnabled ⟨g, "v1", "gadgets"⟩ = false ∧
    ((NewResourceConfig.DisableResources [⟨g, "v1", "gadgets"⟩]).EnableVersions
        [⟨g, "v1"⟩]).AnyResourceForGroupEnabled g = true := by
  have hv1 : ((NewResourceConfig.EnableVersions [⟨g, "v1"⟩]).DisableResources
      [⟨g, "v1", "gadgets"⟩]).VersionEnabled ⟨g, "v1"⟩ = true := by
    simp [ResourceConfig.VersionEnabled, ResourceConfig.EnableVersions,
      ResourceConfig.DisableResources, AList.lookup_insert]
  have hv2 : ((NewResourceConfig.DisableResources [⟨g, "v1", "gadgets"⟩]).EnableVersions
      [⟨g, "v1"⟩]).VersionEnabled ⟨g, "v1"⟩ = true := by
    simp [ResourceConfig.VersionEnabled, ResourceConfig.EnableVersions,
      AList.lookup_insert]
  refine ⟨?_, ?_, anyResource_of_enabled_version _ ⟨g, "v1"⟩ hv1, ?_, ?_,
    anyResource_of_enabled_version _ ⟨g, "v1"⟩ hv2⟩
  · have hl : ((NewResourceConfig.EnableVersions [⟨g, "v1"⟩]).DisableResources
        [⟨g, "v1", "gadgets"⟩]).ResourceConfigs.lookup ⟨g, "v1", "widgets"⟩ = none := by
      simp only [ResourceConfig.DisableResources, ResourceConfig.EnableVersions,
        NewResourceConfig, lookup_foldl_insert]
      simp
    have hgv : (⟨g, "v1", "widgets"⟩ : GroupVersionResource).GroupVersion = ⟨g, "v1"⟩ := rfl
    simp [ResourceConfig.ResourceEnabled, hl, hgv, hv1]
  · simp [ResourceConfig.ResourceEnabled, ResourceConfig.DisableResources,
      AList.lookup_insert]
  · have hl : ((NewResourceConfig.DisableResources [⟨g, "v1", "gadgets"⟩]).EnableVersions
        [⟨g, "v1"⟩]).ResourceConfigs.lookup ⟨g, "v1", "widgets"⟩ = none := by
      simp only [ResourceConfig.DisableResources, ResourceConfig.EnableVersions,
        NewResourceConfig, lookup_foldl_insert]
      simp
    have hgv : (⟨g, "v1", "widgets"⟩ : GroupVersionResource).GroupVersion = ⟨g, "v1"⟩ := rfl
    simp [ResourceConfig.ResourceEnabled, hl, hgv, hv2]
  · simp [ResourceConfig.ResourceEnabled, ResourceConfig.DisableResources,
      ResourceConfig.EnableVersions, AList.lookup_insert]

end Storage

namespace Storage

/-- C17: a later global override takes priority over recorded resource exceptions.
After `DisableMatchingVersions(m)` and the removal of the resource preferences whose
version `m` accepts, in either order, every resource whose version `m` accepts
resolves disabled, even if it was explicitly enabled; with `EnableMatchingVersions(m)`
instead, every such resource whose version is recorded resolves enabled, even if it
was explicitly disabled. -/
theorem global_override_wins (c : ResourceConfig) (m : GroupVersion → Bool)
    (r : GroupVersionResource) (hm : m r.GroupVersion = true) :
    ((c.DisableMatchingVersions m).RemoveMatchingResourcePreferences
        (fun x => m x.GroupVersion)).ResourceEnabled r = false ∧
    ((c.RemoveMatchingResourcePreferences
        (fun x => m x.GroupVersion)).DisableMatchingVersions m).ResourceEnabled r = false ∧
    (r.GroupVersion ∈ c.GroupVersionConfigs →
      ((c.EnableMatchingVersions m).RemoveMatchingResourcePreferences
          (fun x => m x.GroupVersion)).ResourceEnabled r = true ∧
      ((c.RemoveMatchingResourcePreferences
          (fun x => m x.GroupVersion)).EnableMatchingVersions m).ResourceEnabled r = true) := by
  have hrem : ∀ o : ResourceConfig,
      (o.RemoveMatchingResourcePreferences (fun x => m x.GroupVersion)).ResourceConfigs.lookup r
        = none := by
    intro o
    rw [lookup_RemoveMatchingResourcePreferences]
    simp [hm]
  have hdis : (c.DisableMatchingVersions m).VersionEnabled r.GroupVersion = false := by
    unfold ResourceConfig.VersionEnabled ResourceConfig.DisableMatchingVersions
    simp only [lookup_matchingVersions]
    by_cases hk : r.GroupVersion ∈ c.GroupVersionConfigs
    · simp [hk, hm]
    · simp [hk, AList.lookup_eq_none.mpr hk]
  have hen : r.GroupVersion ∈ c.GroupVersionConfigs →
      (c.EnableMatchingVersions m).VersionEnabled r.GroupVersion = true := by
    intro hk
    unfold ResourceConfig.VersionEnabled ResourceConfig.EnableMatchingVersions
    simp only [lookup_matchingVersions]
    simp [hk, hm]
  have h1 : ((c.DisableMatchingVersions m).RemoveMatchingResourcePreferences
      (fun x => m x.GroupVersion)).VersionEnabled r.GroupVersion
      = (c.DisableMatchingVersions m).VersionEnabled r.GroupVersion := rfl
  have h2 : ((c.RemoveMatchingResourcePreferences
      (fun x => m x.GroupVersion)).DisableMatchingVersions m).VersionEnabled r.GroupVersion
      = (c.DisableMatchingVersions m).VersionEnabled r.GroupVersion := rfl
  have h3 : ((c.EnableMatchingVersions m).RemoveMatchingResourcePreferences
      (fun x => m x.GroupVersion)).VersionEnabled r.GroupVersion
      = (c.EnableMatchingVersions m).VersionEnabled r.GroupVersion := rfl
  have h4 : ((c.RemoveMatchingResourcePreferences
      (fun x => m x.GroupVersion)).EnableMatchingVersions m).VersionEnabled r.GroupVersion
      = (c.EnableMatchingVersions m).VersionEnabled r.GroupVersion := rfl
  have l2 : ((c.RemoveMatchingResourcePreferences
      (fun x => m x.GroupVersion)).DisableMatchingVersions m).ResourceConfigs.lookup r
      = none := hrem c
  have l4 : ((c.RemoveMatchingResourcePreferences
      (fun x => m x.GroupVersion)).EnableMatchingVersions m).ResourceConfigs.lookup r
      = none := hrem c
  refine ⟨?_, ?_, ?_⟩
  · unfold ResourceConfig.ResourceEnabled
    rw [hrem, h1, hdis]
    rfl
  · unfold ResourceConfig.ResourceEnabled
    rw [l2, h2, hdis]
    rfl
  · intro hk
    constructor
    · unfold ResourceConfig.ResourceEnabled
      rw [hrem, h3, hen hk]
      rfl
    · unfold ResourceConfig.ResourceEnabled
      rw [l4, h4, hen hk]
      rfl

/-- An explicitly enabled `widgets` under `(g, v1)` resolves disabled once the versions
named `v1` are disabled and the matching resource preferences removed. -/
theorem global_override_wins_witness :
    let c := (NewResourceConfig.EnableVersions [⟨"g", "v1"⟩]).EnableResources
      [⟨"g", "v1", "widgets"⟩]
    let m : GroupVersion → Bool := fun k => decide (k.Version = "v1")
    (m (⟨"g", "v1", "widgets"⟩ : GroupVersionResource).GroupVersion = true ∧
      c.ResourceConfigs.lookup ⟨"g", "v1", "widgets"⟩ = some true) ∧
    ((c.DisableMatchingVersions m).RemoveMatchingResourcePreferences
        (fun x => m x.GroupVersion)).ResourceEnabled ⟨"g", "v1", "widgets"⟩ = false :=
  ⟨⟨by decide, by decide⟩,
    (global_override_wins
      ((NewResourceConfig.EnableVersions [⟨"g", "v1"⟩]).EnableResources
        [⟨"g", "v1", "widgets"⟩])
      (fun k => decide (k.Version = "v1")) ⟨"g", "v1", "widgets"⟩ (by decide)).1⟩

/-- C18: `AnyResourceForGroupEnabled` is a sound group-level gate: when it is false for
group `g`, `ResourceEnabled` is false for every resource of group `g`, whatever its
version and name and whether or not it has an explicit entry. -/
theorem anyResource_false_gate (c : ResourceConfig) (g : String)
    (h : c.AnyResourceForGroupEnabled g = false) (r : GroupVersionResource)
    (hr : r.Group = g) : c.ResourceEnabled r = false := by
  cases he : c.ResourceEnabled r with
  | false => rfl
  | true =>
    exfalso
    have htrue : c.AnyResourceForGroupEnabled r.Group = true := by
      cases hl : c.ResourceConfigs.lookup r with
      | some b =>
        exact anyResource_of_enabled_entry c r
          (AList.lookup_isSome.mp (by rw [hl]; rfl)) he
      | none =>
        have hv : c.VersionEnabled r.GroupVersion = true := by
          unfold ResourceConfig.ResourceEnabled at he
          rw [hl] at he
          cases hve : c.VersionEnabled r.GroupVersion with
          | true => rfl
          | false => rw [hve] at he; exact absurd he (by simp)
        exact anyResource_of_enabled_version c r.GroupVersion hv
    rw [hr, h] at htrue
    exact absurd htrue (by simp)

/-- With only the group `h` configured, the gate is closed for group `g` and a resource
of `g` resolves disabled. -/
theorem anyResource_false_gate_witness :
    let c := (NewResourceConfig.EnableVersions [⟨"h", "v1"⟩]).DisableResources
      [⟨"g", "v1", "gadgets"⟩]
    c.AnyResourceForGroupEnabled "g" = false ∧ c.ResourceEnabled ⟨"g", "v1", "widgets"⟩ = false :=
  ⟨by decide,
    anyResource_false_gate
      ((NewResourceConfig.EnableVersions [⟨"h", "v1"⟩]).DisableResources
        [⟨"g", "v1", "gadgets"⟩]) "g" (by decide) ⟨"g", "v1", "widgets"⟩ rfl⟩

end Storage

namespace Storage

/-- Under a version that reads enabled there is a resource name without an explicit
entry, and the resource of that name resolves enabled: the resource map is finite. -/
theorem exists_unset_resource (c : ResourceConfig) (v : GroupVersion)
    (hv : c.VersionEnabled v = true) :
    ∃ name : String, v.WithResource name ∉ c.ResourceConfigs ∧
      c.ResourceEnabled (v.WithResource name) = true := by
  obtain ⟨name, hname⟩ := Infinite.exists_not_mem_finset
    (c.ResourceConfigs.keys.map (fun k => k.Resource)).toFinset
  have hnot : v.WithResource name ∉ c.ResourceConfigs := by
    intro hmem
    apply hname
    rw [List.mem_toFinset]
    exact List.mem_map.mpr ⟨v.WithResource name, AList.mem_keys.mp hmem, rfl⟩
  refine ⟨name, hnot, ?_⟩
  have hgv : (v.WithResource name).GroupVersion = v := rfl
  unfold ResourceConfig.ResourceEnabled
  rw [AList.lookup_eq_none.mpr hnot, hgv, hv]
  rfl

/-- C19: `AnyResourceForGroupEnabled` never over-reports: when it is true for group `g`,
some resource of group `g` resolves enabled.  In particular every version of `g`
that reads enabled has a resource name without an explicit entry that resolves
enabled, even when all explicitly configured resources are disabled. -/
theorem anyResource_true_has_enabled_resource (c : ResourceConfig) (g : String)
    (h : c.AnyResourceForGroupEnabled g = true) :
    (∃ r : GroupVersionResource, r.Group = g ∧ c.ResourceEnabled r = true) ∧
    (∀ v : GroupVersion, v.Group = g → c.VersionEnabled v = true →
      ∃ name : String, v.WithResource name ∉ c.ResourceConfigs ∧
        c.ResourceEnabled (v.WithResource name) = true) := by
  constructor
  · rcases anyResource_cases c g h with ⟨v, hg, hv⟩ | ⟨r, hg, hr⟩
    · obtain ⟨name, _, hen⟩ := exists_unset_resource c v hv
      exact ⟨v.WithResource name, hg, hen⟩
    · exact ⟨r, hg, hr⟩
  · intro v _ hv
    exact exists_unset_resource c v hv

/-- The gate is open for `g` through the enabled version `(g, v1)` alone, its one
configured resource being disabled. -/
theorem anyResource_true_has_enabled_resource_witness :
    let c := (NewResourceConfig.EnableVersions [⟨"g", "v1"⟩]).DisableResources
      [⟨"g", "v1", "gadgets"⟩]
    (c.AnyResourceForGroupEnabled "g" = true ∧
      c.ResourceEnabled ⟨"g", "v1", "gadgets"⟩ = false ∧
      c.ResourceEnabled ⟨"g", "v1", "widgets"⟩ = true) ∧
    ∃ r : GroupVersionResource, r.Group = "g" ∧ c.ResourceEnabled r = true :=
  ⟨⟨by decide, by decide, by decide⟩,
    (anyResource_true_has_enabled_resource
      ((NewResourceConfig.EnableVersions [⟨"g", "v1"⟩]).DisableResources
        [⟨"g", "v1", "gadgets"⟩]) "g" (by decide)).1⟩

/-- C20: version-level enabling is monotone on resource enablement: a resource that
resolves enabled still does after `EnableVersions(vs)` and after
`EnableMatchingVersions(m)`; dually a resource that resolves disabled still does
after `DisableVersions(vs)` and after `DisableMatchingVersions(m)`. -/
theorem version_operations_monotone (c : ResourceConfig) (vs : List GroupVersion)
    (m : GroupVersion → Bool) (r : GroupVersionResource) :
    (c.ResourceEnabled r = true →
      (c.EnableVersions vs).ResourceEnabled r = true ∧
      (c.EnableMatchingVersions m).ResourceEnabled r = true) ∧
    (c.ResourceEnabled r = false →
      (c.DisableVersions vs).ResourceEnabled r = false ∧
      (c.DisableMatchingVersions m).ResourceEnabled r = false) := by
  have r1 : (c.EnableVersions vs).ResourceConfigs = c.ResourceConfigs := rfl
  have r2 : (c.EnableMatchingVersions m).ResourceConfigs = c.ResourceConfigs := rfl
  have r3 : (c.DisableVersions vs).ResourceConfigs = c.ResourceConfigs := rfl
  have r4 : (c.DisableMatchingVersions m).ResourceConfigs = c.ResourceConfigs := rfl
  have g1 : (c.EnableVersions vs).GroupVersionConfigs.lookup r.GroupVersion
      = if r.GroupVersion ∈ vs then some true
        else c.GroupVersionConfigs.lookup r.GroupVersion :=
    lookup_foldl_insert true vs _ _
  have g2 : (c.EnableMatchingVersions m).GroupVersionConfigs.lookup r.GroupVersion
      = if r.GroupVersion ∈ c.GroupVersionConfigs ∧ m r.GroupVersion = true then some true
        else c.GroupVersionConfigs.lookup r.GroupVersion :=
    lookup_matchingVersions true _ m _
  have g3 : (c.DisableVersions vs).GroupVersionConfigs.lookup r.GroupVersion
      = if r.GroupVersion ∈ vs then some false
        else c.GroupVersionConfigs.lookup r.GroupVersion :=
    lookup_foldl_insert false vs _ _
  have g4 : (c.DisableMatchingVersions m).GroupVersionConfigs.lookup r.GroupVersion
      = if r.GroupVersion ∈ c.GroupVersionConfigs ∧ m r.GroupVersion = true then some false
        else c.GroupVersionConfigs.lookup r.GroupVersion :=
    lookup_matchingVersions false _ m _
  unfold ResourceConfig.ResourceEnabled ResourceConfig.VersionEnabled
  rw [r1, r2, r3, r4, g1, g2, g3, g4]
  cases hl : c.ResourceConfigs.lookup r with
  | some b => simp
  | none =>
    constructor
    · intro h
      constructor
      · split_ifs <;> simp_all
      · split_ifs <;> simp_all
    · intro h
      constructor
      · split_ifs <;> simp_all
      · split_ifs <;> simp_all

/-- A resource enabled through its version stays enabled when other versions are
enabled, and a resource disabled explicitly stays disabled under bulk disabling. -/
theorem version_operations_monotone_witness :
    let c := (NewResourceConfig.EnableVersions [⟨"g", "v1"⟩]).DisableResources
      [⟨"g", "v1", "gadgets"⟩]
    (c.ResourceEnabled ⟨"g", "v1", "widgets"⟩ = true ∧
      (c.EnableVersions [⟨"g", "v2"⟩]).ResourceEnabled ⟨"g", "v1", "widgets"⟩ = true) ∧
    (c.ResourceEnabled ⟨"g", "v1", "gadgets"⟩ = false ∧
      (c.DisableMatchingVersions (fun _ => true)).ResourceEnabled ⟨"g", "v1", "gadgets"⟩
        = false) :=
  ⟨⟨by decide,
      ((version_operations_monotone
        ((NewResourceConfig.EnableVersions [⟨"g", "v1"⟩]).DisableResources
          [⟨"g", "v1", "gadgets"⟩]) [⟨"g", "v2"⟩] (fun _ => true)
        ⟨"g", "v1", "widgets"⟩).1 (by decide)).1⟩,
    ⟨by decide, by decide⟩⟩

end Storage

/-! ## No operation faults on a configuration built by `NewResourceConfig` -/

namespace Storage

/-- A loop of writes into an initialised map never panics and computes the same map as
the loop over plain maps. -/
theorem foldlM_assign {K : Type} [DecidableEq K] (b : Bool) (l : List K) (m : BoolMap K) :
    l.foldlM (fun acc x => NilableMap.assign acc x b) (some m)
      = some (some (l.foldl (fun acc x => acc.insert x b) m)) := by
  induction l generalizing m with
  | nil => rfl
  | cons x xs ih =>
    rw [List.foldlM_cons, List.foldl_cons]
    exact ih (m.insert x b)

/-- A loop of guarded writes into an initialised map never panics and computes the same
map as the loop over plain maps. -/
theorem foldlM_assign_if {K : Type} [DecidableEq K] (p : K → Bool) (b : Bool) (l : List K)
    (m : BoolMap K) :
    l.foldlM (fun acc x => if p x then NilableMap.assign acc x b else some acc) (some m)
      = some (some (l.foldl (fun acc x => if p x then acc.insert x b else acc) m)) := by
  induction l generalizing m with
  | nil => rfl
  | cons x xs ih =>
    rw [List.foldlM_cons, List.foldl_cons]
    by_cases hp : p x = true
    · simp only [hp, if_true]
      exact ih (m.insert x b)
    · simp only [hp, if_false]
      exact ih m

/-- A loop of deletes on an initialised map computes the same map as the loop over
plain maps. -/
theorem foldl_delete {K : Type} [DecidableEq K] (l : List K) (m : BoolMap K) :
    l.foldl (fun acc x => NilableMap.delete acc x) (some m)
      = some (l.foldl (fun acc x => acc.erase x) m) := by
  induction l generalizing m with
  | nil => rfl
  | cons x xs ih =>
    rw [List.foldl_cons, List.foldl_cons]
    exact ih (m.erase x)

/-- On an initialised configuration no call panics, and the state it leaves is the
initialised configuration computed over plain maps. -/
theorem applyRaw_toRaw (op : Op) (c : ResourceConfig) :
    op.applyRaw c.toRaw = some (op.apply c).toRaw := by
  cases op with
  | EnableVersions versions =>
    simp only [Op.applyRaw, RawResourceConfig.EnableVersions, ResourceConfig.toRaw,
      foldlM_assign]
    rfl
  | DisableVersions versions =>
    simp only [Op.applyRaw, RawResourceConfig.DisableVersions, ResourceConfig.toRaw,
      foldlM_assign]
    rfl
  | EnableResources resources =>
    simp only [Op.applyRaw, RawResourceConfig.EnableResources, ResourceConfig.toRaw,
      foldlM_assign]
    rfl
  | DisableResources resources =>
    simp only [Op.applyRaw, RawResourceConfig.DisableResources, ResourceConfig.toRaw,
      foldlM_assign]
    rfl
  | EnableMatchingVersions matcher =>
    simp only [Op.applyRaw, RawResourceConfig.EnableMatchingVersions, ResourceConfig.toRaw,
      NilableMap.rangeKeys, foldlM_assign_if]
    rfl
  | DisableMatchingVersions matcher =>
    simp only [Op.applyRaw, RawResourceConfig.DisableMatchingVersions, ResourceConfig.toRaw,
      NilableMap.rangeKeys, foldlM_assign_if]
    rfl
  | RemoveMatchingResourcePreferences matcher =>
    simp only [Op.applyRaw, RawResourceConfig.RemoveMatchingResourcePreferences,
      ResourceConfig.toRaw, NilableMap.rangeKeys, foldl_delete]
    rfl

/-- From an initialised configuration no sequence of calls panics. -/
theorem runRawOps_toRaw (ops : List Op) (c : ResourceConfig) :
    runRawOps ops c.toRaw = some (runOps ops c).toRaw := by
  induction ops generalizing c with
  | nil => rfl
  | cons op rest ih =>
    unfold runRawOps runOps
    rw [List.foldlM_cons, List.foldl_cons, applyRaw_toRaw]
    exact ih (op.apply c)

/-- The queries on an initialised configuration in memory are those over plain maps. -/
theorem queries_toRaw (c : ResourceConfig) :
    (∀ v, c.toRaw.VersionEnabled v = c.VersionEnabled v) ∧
    (∀ r, c.toRaw.ResourceEnabled r = c.ResourceEnabled r) ∧
    (∀ g, c.toRaw.AnyResourceForGroupEnabled g = c.AnyResourceForGroupEnabled g) := by
  have hv : ∀ v, c.toRaw.VersionEnabled v = c.VersionEnabled v := fun _ => rfl
  have hr : ∀ r, c.toRaw.ResourceEnabled r = c.ResourceEnabled r := fun _ => rfl
  refine ⟨hv, hr, ?_⟩
  intro g
  unfold RawResourceConfig.AnyResourceForGroupEnabled ResourceConfig.AnyResourceForGroupEnabled
  simp only [hv, hr]
  rfl

/-- The write that the initialisation in `NewResourceConfig` protects against: on the
zero value `ResourceConfig{}`, whose maps are nil, `EnableVersions` with an argument
panics, while the queries still answer. -/
theorem zero_value_write_panics :
    (RawResourceConfig.mk none none).EnableVersions [⟨"g", "v1"⟩] = none ∧
    (RawResourceConfig.mk none none).EnableResources [⟨"g", "v1", "widgets"⟩] = none ∧
    (RawResourceConfig.mk none none).ResourceEnabled ⟨"g", "v1", "widgets"⟩ = false := by
  refine ⟨rfl, rfl, rfl⟩

/-- C16: no resolver operation fails.  After any finite sequence of public operations on
`NewResourceConfig()` the run has not panicked and both maps are initialised; every
further mutation completes without a panic and leaves both maps initialised; and
the three queries return a boolean for every argument, the one computed over plain
maps, which for the untouched identifier with empty group, version and resource is
`false` on the new configuration. -/
theorem no_operation_fails (ops : List Op) :
    ∃ c : RawResourceConfig,
      runRawOps ops NewRawResourceConfig = some c ∧
      c = (runOps ops NewResourceConfig).toRaw ∧
      c.GroupVersionConfigs.isSome = true ∧ c.ResourceConfigs.isSome = true ∧
      (∀ op : Op, ∃ c2 : RawResourceConfig, op.applyRaw c = some c2 ∧
        c2.GroupVersionConfigs.isSome = true ∧ c2.ResourceConfigs.isSome = true) ∧
      (∀ v, c.VersionEnabled v = (runOps ops NewResourceConfig).VersionEnabled v) ∧
      (∀ r, c.ResourceEnabled r = (runOps ops NewResourceConfig).ResourceEnabled r) ∧
      (∀ g, c.AnyResourceForGroupEnabled g
        = (runOps ops NewResourceConfig).AnyResourceForGroupEnabled g) ∧
      NewRawResourceConfig.VersionEnabled ⟨"", ""⟩ = false ∧
      NewRawResourceConfig.ResourceEnabled ⟨"", "", ""⟩ = false ∧
      NewRawResourceConfig.AnyResourceForGroupEnabled "" = false := by
  have hq := queries_toRaw (runOps ops NewResourceConfig)
  refine ⟨(runOps ops NewResourceConfig).toRaw, runRawOps_toRaw ops NewResourceConfig, rfl,
    rfl, rfl, ?_, hq.1, hq.2.1, hq.2.2, rfl, rfl, rfl⟩
  intro op
  exact ⟨(op.apply (runOps ops NewResourceConfig)).toRaw, applyRaw_toRaw op _, rfl, rfl⟩

end Storage

namespace Rest

open Storage

/-- With networkpolicies disabled and all three constructors failing, the error that
reaches the caller of `NewRESTStorage` is the one of ingresses, the first enabled
resource, next to the empty group info and `false`. -/
theorem v1Storage_error_iff_witness :
    NewRESTStorage (G := Unit) (E := String) (H := String) (I := String)
        { NewDefaultAPIGroupInfo := "default group info"
          zero := "empty group info"
          setVersionedResourcesStorageMap := fun i _ _ => i }
        (NewResourceConfig.EnableResources
          [SchemeGroupVersion.WithResource "ingresses",
            SchemeGroupVersion.WithResource "ingressclasses"]).toSource
        { networkPolicyNewREST := fun _ => .error "network policy store failed"
          ingressNewREST := fun _ => .error "ingress store failed"
          ingressClassNewREST := fun _ => .error "ingress class store failed" } ()
      = ("empty group info", false, some "ingress store failed") :=
  (v1Storage_error_iff (G := Unit) (E := String) (H := String) (I := String)
      { NewDefaultAPIGroupInfo := "default group info"
        zero := "empty group info"
        setVersionedResourcesStorageMap := fun i _ _ => i }
      (NewResourceConfig.EnableResources
        [SchemeGroupVersion.WithResource "ingresses",
          SchemeGroupVersion.WithResource "ingressclasses"]).toSource
      { networkPolicyNewREST := fun _ => .error "network policy store failed"
        ingressNewREST := fun _ => .error "ingress store failed"
        ingressClassNewREST := fun _ => .error "ingress class store failed" } ()).2.2.1
    "ingress store failed" (by decide)

end Rest
